import Mathlib

/-!
Verification development for the kanmd markdown-backed Kanban store.

The card store operates on markdown card files grouped in column
directories.  We shallowly embed the implementation in
`src/files.ts` (the rank-supporting variant): JavaScript strings are
modelled as `List Char`, the filesystem as a list of file entries
keyed by column and filename, and each card operation as a pure
function from store state to store state plus a typed result.
JavaScript string primitives (trim, split, indexOf, slice, replace)
are modelled character-exactly on `List Char`; `localeCompare` is
modelled as code-point lexicographic comparison, which agrees with it
on the ASCII data the store produces.
-/

/-- JavaScript strings, modelled as lists of characters. -/
abbrev Str := List Char

/-- Convert a Lean string literal to the `Str` model. -/
def String.toStr (s : String) : Str := s.data

/-- Whitespace recognised by the JavaScript trim functions
(ASCII subset; the store only ever trims ASCII whitespace). -/
def isWs (c : Char) : Bool :=
  c = ' ' || c = '\t' || c = '\n' || c = '\r'

/-- Model of `String.prototype.trimStart`. -/
def jsTrimStart (s : Str) : Str := s.dropWhile isWs

/-- Model of `String.prototype.trimEnd`. -/
def jsTrimEnd (s : Str) : Str := (s.reverse.dropWhile isWs).reverse

/-- Model of `String.prototype.trim`. -/
def jsTrim (s : Str) : Str := jsTrimEnd (jsTrimStart s)

/-- Model of `String.prototype.split(c)` for a single-character
separator: splitting on `c` yields one more piece than there are
separators, and never drops empty pieces. -/
def splitCh (c : Char) : Str → List Str
  | [] => [[]]
  | a :: rest =>
    match splitCh c rest with
    | [] => [[]]
    | h :: t => if a = c then [] :: h :: t else (a :: h) :: t

/-- Model of `Array.prototype.join("\n")` on lines. -/
def joinNl (ls : List Str) : Str := List.intercalate ['\n'] ls

/-- Offset of the first occurrence of `sub` in `s`, scanning the
tails of `s` left to right. -/
def findSub (sub : Str) : Str → Option Nat
  | [] => if sub = [] then some 0 else none
  | c :: rest =>
    if sub.isPrefixOf (c :: rest) then some 0
    else (findSub sub rest).map (fun i => i + 1)

/-- Model of `String.prototype.indexOf(sub, start)`; `none` models the
JavaScript result `-1`. -/
def jsIndexOf (s sub : Str) (start : Nat) : Option Nat :=
  (findSub sub (s.drop start)).map (fun i => i + start)

/-- Model of `String.prototype.replace(target, repl)` for plain string
arguments: replaces the first occurrence only. -/
def replaceFirst (s target repl : Str) : Str :=
  match jsIndexOf s target 0 with
  | none => s
  | some i => s.take i ++ repl ++ s.drop (i + target.length)

/-- Decimal digit test, as in the regular expressions of the source. -/
def isDigitCh (c : Char) : Bool := '0' ≤ c && c ≤ '9'

/-- Numeric value of a decimal digit character. -/
def digitVal (c : Char) : Nat := c.toNat - '0'.toNat

/-- Accumulate a decimal digit string into a number. -/
def parseDigits (ds : Str) : Nat := ds.foldl (fun acc c => acc * 10 + digitVal c) 0

/-- Model of `parseInt(s, 10)`: skip leading whitespace, read an
optional sign and then a maximal digit run; no digits means `NaN`,
modelled as `none`. -/
def jsParseInt (s : Str) : Option Int :=
  let t := s.dropWhile isWs
  let signAndRest : Int × Str :=
    match t with
    | '-' :: r => (-1, r)
    | '+' :: r => (1, r)
    | r => (1, r)
  let ds := signAndRest.2.takeWhile isDigitCh
  if ds = [] then none else some (signAndRest.1 * (parseDigits ds : Int))

/-- Decimal digit character for a value below ten. -/
def digitChar (n : Nat) : Char := Char.ofNat ('0'.toNat + n)

/-- Fuelled decimal rendering of a natural number; the fuel only has
to exceed the number of digits. -/
def natToStrAux : Nat → Nat → Str
  | 0, _ => []
  | fuel + 1, n =>
    if n < 10 then [digitChar n]
    else natToStrAux fuel (n / 10) ++ [digitChar (n % 10)]

/-- Decimal rendering of a natural number, as JavaScript template
interpolation renders a nonnegative integer. -/
def natToStr (n : Nat) : Str := natToStrAux (n + 1) n

/-- Decimal rendering of an integer. -/
def intToStr (n : Int) : Str :=
  if n < 0 then '-' :: natToStr n.natAbs else natToStr n.toNat

/-- Model of `a.localeCompare(b)` on the ASCII data of the store:
code-point lexicographic comparison returning a sign. -/
def localeCmp : Str → Str → Int
  | [], [] => 0
  | [], _ :: _ => -1
  | _ :: _, [] => 1
  | a :: as, b :: bs =>
    if a.toNat < b.toNat then -1
    else if b.toNat < a.toNat then 1
    else localeCmp as bs

/-- A checklist entry of a card (`types.ts`). -/
structure ChecklistItem where
  text : Str
  checked : Bool
deriving DecidableEq, Repr

/-- A card record (`types.ts`).  `priority` is kept as a string
because the parser stores whatever string the file carries. -/
structure Card where
  id : Str
  title : Str
  priority : Str
  labels : List Str
  created : Str
  updated : Option Str := none
  description : Str
  checklist : List ChecklistItem
  column : Str
  rank : Option Int := none
deriving DecidableEq, Repr

/-- The frontmatter record accumulated by `parseFrontmatter`.  The
source stores unrecognised keys in the same dynamic record; those are
collected in `extra` and never read by `parseCard`. -/
structure Frontmatter where
  priority : Option Str := none
  labels : Option (List Str) := none
  created : Option Str := none
  rank : Option Int := none
  extra : List (Str × Str) := []
deriving DecidableEq, Repr

/-- Process one frontmatter line, as the loop body of
`parseFrontmatter` does: split at the first colon, trim key and
value, then dispatch on the key. -/
def fmSetLine (fm : Frontmatter) (line : Str) : Frontmatter :=
  match jsIndexOf line [':'] 0 with
  | none => fm
  | some ci =>
    let key := jsTrim (line.take ci)
    let value := jsTrim (line.drop (ci + 1))
    if key = "labels".toStr then
      let ls :=
        if value = [] then []
        else ((splitCh ',' value).map jsTrim).filter (fun l => l ≠ [])
      { fm with labels := some ls }
    else if key = "rank".toStr then
      match jsParseInt value with
      | some n => { fm with rank := some n }
      | none => fm
    else if key = "priority".toStr then { fm with priority := some value }
    else if key = "created".toStr then { fm with created := some value }
    else { fm with extra := fm.extra ++ [(key, value)] }

/-- Result of `parseFrontmatter`. -/
structure FmResult where
  frontmatter : Frontmatter
  content : Str
deriving DecidableEq, Repr

/-- Model of `parseFrontmatter`: if the text starts with the `---`
delimiter and a second `---` occurs from position 3 on, the block in
between (trimmed) is scanned line by line; the rest (trimmed) is the
body.  Otherwise the whole text is the body. -/
def parseFrontmatter (markdown : Str) : FmResult :=
  if ("---".toStr).isPrefixOf markdown then
    match jsIndexOf markdown "---".toStr 3 with
    | some endIndex =>
      let yamlBlock := jsTrim ((markdown.take endIndex).drop 3)
      let content := jsTrim (markdown.drop (endIndex + 3))
      { frontmatter := (splitCh '\n' yamlBlock).foldl fmSetLine {}
        content := content }
    | none => { frontmatter := {}, content := markdown }
  else { frontmatter := {}, content := markdown }

/-- Body sections of the card parser state machine. -/
inductive Sec
  | header
  | descr
  | checklist
  | other
deriving DecidableEq, Repr

/-- Accumulator of the body walk inside `parseCard`. -/
structure BodyAcc where
  title : Str := []
  sec : Sec := .header
  descLines : List Str := []
  checklist : List ChecklistItem := []
deriving DecidableEq, Repr

/-- Model of the checklist line regular expression
`^- \[( |x)\] (.+)$` applied to a trimmed line; the captured text
must be nonempty and, as `.` does not match newlines, newline-free. -/
def checkItem (t : Str) : Option ChecklistItem :=
  match t with
  | '-' :: ' ' :: '[' :: m :: ']' :: ' ' :: rest =>
    if (m = ' ' || m = 'x') && rest ≠ [] && !(rest.contains '\n') then
      some { text := rest, checked := m = 'x' }
    else none
  | _ => none

/-- One step of the body walk of `parseCard`: title capture, section
switches, description accumulation and checklist matching, in the
order of the source. -/
def bodyStep (acc : BodyAcc) (line : Str) : BodyAcc :=
  let trimmed := jsTrim line
  if ("# ".toStr).isPrefixOf trimmed && acc.title = [] then
    { acc with title := jsTrim (trimmed.drop 2) }
  else if trimmed = "## Description".toStr then { acc with sec := .descr }
  else if trimmed = "## Checklist".toStr then { acc with sec := .checklist }
  else if ("## ".toStr).isPrefixOf trimmed then { acc with sec := .other }
  else if acc.sec = .descr then { acc with descLines := acc.descLines ++ [line] }
  else if acc.sec = .checklist then
    match checkItem trimmed with
    | some item => { acc with checklist := acc.checklist ++ [item] }
    | none => acc
  else acc

/-- Model of `parseCard(markdown, filename, column)`.  The id is the
filename with its first `.md` occurrence removed; frontmatter
defaults are applied; then the body is walked line by line. -/
def parseCard (markdown filename column : Str) : Card :=
  let r := parseFrontmatter markdown
  let acc := (splitCh '\n' r.content).foldl bodyStep {}
  { id := replaceFirst filename ".md".toStr []
    title := acc.title
    priority :=
      match r.frontmatter.priority with
      | some p => if p = [] then "medium".toStr else p
      | none => "medium".toStr
    labels := r.frontmatter.labels.getD []
    created := r.frontmatter.created.getD []
    updated := none
    description := jsTrim (joinNl acc.descLines)
    checklist := acc.checklist
    column := column
    rank := r.frontmatter.rank }

/-- The serialized line of one checklist item. -/
def itemLine (item : ChecklistItem) : Str :=
  (if item.checked then "- [x] ".toStr else "- [ ] ".toStr) ++ item.text

/-- Model of `serializeCard(card)`.  `now` is the ISO rendering of the
current instant, consulted only when `created` is empty (the source
calls `new Date().toISOString().split('T')[0]` there). -/
def serializeCard (card : Card) (now : Str) : Str :=
  let fmPr := "priority: ".toStr ++
    (if card.priority = [] then "medium".toStr else card.priority)
  let fmLb :=
    if card.labels.length > 0 then
      "labels: ".toStr ++ List.intercalate ", ".toStr card.labels
    else "labels:".toStr
  let fmCr := "created: ".toStr ++
    (if card.created = [] then now.takeWhile (fun c => c ≠ 'T') else card.created)
  let fmRk : List Str :=
    match card.rank with
    | some n => ["rank: ".toStr ++ intToStr n]
    | none => []
  let header :=
    ["---".toStr, fmPr, fmLb, fmCr] ++ fmRk ++
    ["---".toStr, [],
     "# ".toStr ++ (if card.title = [] then "Untitled".toStr else card.title)]
  let withDescr :=
    header ++
    (if card.description ≠ [] then
      [[], "## Description".toStr, card.description] else [])
  let allLines :=
    withDescr ++
    (if card.checklist ≠ [] then
      [[], "## Checklist".toStr] ++ card.checklist.map itemLine else [])
  joinNl allLines ++ ['\n']

/-- Error codes of `KanmdError` (`types.ts`). -/
inductive KErr
  | invalidName
  | pathTraversal
  | columnNotFound
  | invalidTitle
  | cardExists
  | cardNotFound
  | alreadyInColumn
  | invalidPosition
  | indexOutOfRange
deriving DecidableEq, Repr

/-- Character class of the name guard `^[a-z0-9_-]+$/i`. -/
def isNameChar (c : Char) : Bool :=
  ('a' ≤ c && c ≤ 'z') || ('A' ≤ c && c ≤ 'Z') ||
  ('0' ≤ c && c ≤ '9') || c = '_' || c = '-'

/-- Model of `validatePathComponent`: the regular expression test plus
the literal dot checks (the latter are already excluded by the
regular expression but are mirrored from the source). -/
def validName (component : Str) : Bool :=
  (component ≠ [] && component.all isNameChar) &&
  component ≠ ".".toStr && component ≠ "..".toStr

/-- One card file on disk: `<root>/<column>/<filename>` with its
content.  The board configuration file is modelled separately by
`FsState.columns`. -/
structure FileEntry where
  column : Str
  filename : Str
  content : Str
deriving DecidableEq, Repr

/-- The board root directory.  `columns` models the parsed
`columns:` block of `board.yaml`; `files` the card files in the
column subdirectories, in directory listing order. -/
structure FsState where
  columns : List Str
  files : List FileEntry
deriving DecidableEq, Repr

/-- In-memory board, as returned by `loadBoard`. -/
structure Board where
  columns : List Str
  cards : List Card
deriving DecidableEq, Repr

/-- Directory listing of one column. -/
def columnFiles (fs : FsState) (col : Str) : List FileEntry :=
  fs.files.filter (fun e => e.column = col)

/-- Model of `loadBoard`: for each configured column in order, parse
every `*.md` file of its directory and accumulate the cards. -/
def loadBoard (fs : FsState) : Board :=
  { columns := fs.columns
    cards := (fs.columns.map (fun col =>
      ((columnFiles fs col).filter (fun e => (".md".toStr).isSuffixOf e.filename)).map
        (fun e => parseCard e.content e.filename col))).flatten }

/-- The cards `loadBoard` collects from one column directory: its
`*.md` files, parsed in listing order. -/
def colCards (fs : FsState) (col : Str) : List Card :=
  ((columnFiles fs col).filter (fun e => (".md".toStr).isSuffixOf e.filename)).map
    (fun e => parseCard e.content e.filename col)

/-- Key test for a file entry. -/
def fileKeyEq (e : FileEntry) (col fn : Str) : Bool :=
  e.column = col && e.filename = fn

/-- Whether a file exists at `<col>/<fn>`. -/
def hasFile (fs : FsState) (col fn : Str) : Bool :=
  fs.files.any (fun e => fileKeyEq e col fn)

/-- Exclusive create (`writeFile` with flag `wx`): fails without any
change when the target exists. -/
def writeExclusive (fs : FsState) (col fn content : Str) : Option FsState :=
  if hasFile fs col fn then none
  else some { fs with files := fs.files ++ [⟨col, fn, content⟩] }

/-- Write-to-temp-then-rename: atomically replaces the content when
the target exists and creates it otherwise. -/
def writeAtomic (fs : FsState) (col fn content : Str) : FsState :=
  if hasFile fs col fn then
    { fs with files :=
        fs.files.map (fun e => if fileKeyEq e col fn then ⟨col, fn, content⟩ else e) }
  else { fs with files := fs.files ++ [⟨col, fn, content⟩] }

/-- `fs.unlink`. -/
def unlinkFile (fs : FsState) (col fn : Str) : FsState :=
  { fs with files := fs.files.filter (fun e => !fileKeyEq e col fn) }

/-- ASCII lower-casing, as `toLowerCase` acts on the ASCII range. -/
def jsToLower (c : Char) : Char :=
  if 'A' ≤ c && c ≤ 'Z' then Char.ofNat (c.toNat + 32) else c

/-- Character class kept by the id generator (`[^a-z0-9\s-]`
removal). -/
def isSlugKeep (c : Char) : Bool :=
  ('a' ≤ c && c ≤ 'z') || ('0' ≤ c && c ≤ '9') || isWs c || c = '-'

/-- Replace every maximal run of characters satisfying `p` by the
single character `r`, as a `replace(/X+/g, r)` does. -/
def collapseAux (p : Char → Bool) (r : Char) : Bool → Str → Str
  | _, [] => []
  | inRun, c :: rest =>
    if p c then (if inRun then [] else [r]) ++ collapseAux p r true rest
    else c :: collapseAux p r false rest

/-- Entry point of `collapseAux` with no run in progress. -/
def collapseRuns (p : Char → Bool) (r : Char) (s : Str) : Str :=
  collapseAux p r false s

/-- The id generator of `addCard`: lower-case, strip characters
outside `[a-z0-9\s-]`, collapse whitespace runs to hyphens, collapse
hyphen runs, truncate to 50 characters. -/
def slugify (title : Str) : Str :=
  ((collapseRuns (fun c => c = '-') '-'
    (collapseRuns isWs '-'
      ((title.map jsToLower).filter isSlugKeep))).take 50)

/-- Character class of the id validity test `^[a-z0-9-]+$`. -/
def isIdChar (c : Char) : Bool :=
  ('a' ≤ c && c ≤ 'z') || ('0' ≤ c && c ≤ '9') || c = '-'

/-- `board.cards.find(c => c.id === cardId)`. -/
def findCard (cards : List Card) (cardId : Str) : Option Card :=
  cards.find? (fun c => c.id = cardId)

/-- Model of `addCard(column, title, priority)` (the source defaults
`priority` to `medium` at the call sites that omit it).  `now` is the
full ISO rendering of the current instant; the source stores only its
date part (`toISOString().split('T')[0]`).  Failures return the state
unchanged. -/
def addCard (fs : FsState) (column title priority now : Str) :
    FsState × Except KErr Card :=
  if !validName column then (fs, .error .invalidName)
  else
    let board := loadBoard fs
    if !board.columns.contains column then (fs, .error .columnNotFound)
    else
      let id := slugify title
      if id = [] || !id.all isIdChar then (fs, .error .invalidTitle)
      else
        let card : Card :=
          { id := id, title := title, priority := priority, labels := []
            created := now.takeWhile (fun c => c ≠ 'T'), description := []
            checklist := [], column := column, rank := none }
        match writeExclusive fs column (id ++ ".md".toStr) (serializeCard card now) with
        | none => (fs, .error .cardExists)
        | some fs2 => (fs2, .ok card)

/-- Model of `moveCard(cardId, toColumn)`: validate, reload, check the
target column and the card, reject a same-column move, then write the
card without its rank to the new path with exclusive create and unlink
the old path. -/
def moveCard (fs : FsState) (cardId toColumn now : Str) :
    FsState × Except KErr Unit :=
  if !validName cardId then (fs, .error .invalidName)
  else if !validName toColumn then (fs, .error .invalidName)
  else
    let board := loadBoard fs
    if !board.columns.contains toColumn then (fs, .error .columnNotFound)
    else
      match findCard board.cards cardId with
      | none => (fs, .error .cardNotFound)
      | some card =>
        if card.column = toColumn then (fs, .error .alreadyInColumn)
        else
          match writeExclusive fs toColumn (cardId ++ ".md".toStr)
              (serializeCard { card with rank := none } now) with
          | none => (fs, .error .cardExists)
          | some fs2 => (unlinkFile fs2 card.column (cardId ++ ".md".toStr), .ok ())

/-- Model of `deleteCard(cardId)`. -/
def deleteCard (fs : FsState) (cardId : Str) : FsState × Except KErr Unit :=
  if !validName cardId then (fs, .error .invalidName)
  else
    match findCard (loadBoard fs).cards cardId with
    | none => (fs, .error .cardNotFound)
    | some card => (unlinkFile fs card.column (cardId ++ ".md".toStr), .ok ())

/-- Model of `getCard(cardId)` (read-only). -/
def getCard (fs : FsState) (cardId : Str) : FsState × Except KErr Card :=
  if !validName cardId then (fs, .error .invalidName)
  else
    match findCard (loadBoard fs).cards cardId with
    | none => (fs, .error .cardNotFound)
    | some card => (fs, .ok card)

/-- A `Partial<Card>` update for `editCard`; a present `rank` field
may itself carry `undefined`, which clears the rank. -/
structure CardPatch where
  title : Option Str := none
  priority : Option Str := none
  labels : Option (List Str) := none
  description : Option Str := none
  checklist : Option (List ChecklistItem) := none
  rank : Option (Option Int) := none
deriving DecidableEq, Repr

/-- The spread merge `{ ...card, ...updates }`. -/
def applyPatch (card : Card) (p : CardPatch) : Card :=
  { card with
    title := p.title.getD card.title
    priority := p.priority.getD card.priority
    labels := p.labels.getD card.labels
    description := p.description.getD card.description
    checklist := p.checklist.getD card.checklist
    rank := p.rank.getD card.rank }

/-- Model of `editCard(cardId, updates)`: merge and rewrite the card
file in place via temp-file-then-rename. -/
def editCard (fs : FsState) (cardId : Str) (p : CardPatch) (now : Str) :
    FsState × Except KErr Unit :=
  if !validName cardId then (fs, .error .invalidName)
  else
    match findCard (loadBoard fs).cards cardId with
    | none => (fs, .error .cardNotFound)
    | some card =>
      (writeAtomic fs card.column (cardId ++ ".md".toStr)
        (serializeCard (applyPatch card p) now), .ok ())

/-- `Number.MAX_SAFE_INTEGER`, the sort key of unranked cards. -/
def maxSafeInteger : Int := 2 ^ 53 - 1

/-- The sort comparator of `rankCard`: rank difference first (unranked
cards count as `MAX_SAFE_INTEGER`), creation timestamps as the tie
break. -/
def cmpCards (a b : Card) : Int :=
  let aRank : Int := match a.rank with | some r => r | none => maxSafeInteger
  let bRank : Int := match b.rank with | some r => r | none => maxSafeInteger
  if aRank ≠ bRank then aRank - bRank else localeCmp a.created b.created

/-- Model of `rankCard(cardId, newPosition)`: validate, reload,
collect the `(column, priority)` group, sort it, remove the target,
insert it at the clamped position, renumber to `index + 1`, and
rewrite every card whose rank changed (the temp-write-then-rename
phases amount to one atomic replace per changed file). -/
def rankCard (fs : FsState) (cardId : Str) (newPosition : Int) (now : Str) :
    FsState × Except KErr Unit :=
  if !validName cardId then (fs, .error .invalidName)
  else if newPosition < 1 then (fs, .error .invalidPosition)
  else
    let board := loadBoard fs
    match findCard board.cards cardId with
    | none => (fs, .error .cardNotFound)
    | some card =>
      let groupCards := board.cards.filter
        (fun c => c.column = card.column && c.priority = card.priority)
      let sorted := List.insertionSort (fun a b => cmpCards a b ≤ 0) groupCards
      let removed :=
        match sorted.findIdx? (fun c => c.id = cardId) with
        | some i => sorted.eraseIdx i
        | none => sorted
      let insertIndex := min (newPosition - 1).toNat removed.length
      let seq := removed.insertIdx insertIndex card
      let updates := (seq.enum).filterMap (fun p =>
        if p.2.rank ≠ some ((p.1 : Int) + 1) then
          some (p.2.column, p.2.id ++ ".md".toStr,
                serializeCard { p.2 with rank := some ((p.1 : Int) + 1) } now)
        else none)
      (updates.foldl (fun acc u => writeAtomic acc u.1 u.2.1 u.2.2) fs, .ok ())

/-- Modelled from the spec: `checklistToggle(id, index)` of
`src/files.ts`, which is not part of the sources (only its callers in
`cli.ts` and its tests are).  Per the spec table: validate the id,
reload the board, find the card (else `CardNotFound`), require
`1 ≤ index ≤ length` (else `IndexOutOfRange`), flip `checked` at the
1-based index, set `updated`, persist the card.  Persistence is
modelled as the in-place replacement of the card in the loaded board.
-/
def checklistToggle (cards : List Card) (cardId : Str) (index : Int) (now : Str) :
    List Card × Except KErr Card :=
  if !validName cardId then (cards, .error .invalidName)
  else
    match findCard cards cardId with
    | none => (cards, .error .cardNotFound)
    | some card =>
      if index < 1 || index > (card.checklist.length : Int) then
        (cards, .error .indexOutOfRange)
      else
        let newList := card.checklist.enum.map (fun p =>
          if ((p.1 : Int)) = index - 1 then { p.2 with checked := !p.2.checked } else p.2)
        let newCard := { card with checklist := newList, updated := some now }
        (cards.map (fun c =>
          if c.id = cardId && c.column = card.column then newCard else c), .ok newCard)

/-- The frontmatter delimiter string. -/
def dash3 : Str := "---".toStr

/-- Scan for three consecutive hyphens. -/
def hasDash3 : Str → Bool
  | [] => false
  | c :: rest => (decide (c = '-') && ("--".toStr).isPrefixOf rest) || hasDash3 rest

/-- First character, if any, is not whitespace. -/
def headNotWs : Str → Bool
  | [] => true
  | c :: _ => !isWs c

/-- Last character, if any, is not whitespace. -/
def lastNotWs (s : Str) : Bool := headNotWs s.reverse

/-- A string value that survives the round trip through one
frontmatter or section line: nonempty, newline-free and
trim-stable. -/
def wfVal (s : Str) : Prop :=
  s ≠ [] ∧ headNotWs s = true ∧ lastNotWs s = true ∧ '\n' ∉ s

/-- A frontmatter value must additionally keep the delimiter scanner
away: no three consecutive hyphens. -/
def wfFmVal (s : Str) : Prop := wfVal s ∧ hasDash3 s = false

/-- A label is a frontmatter value that the comma join must not
cut. -/
def wfLabel (s : Str) : Prop := wfFmVal s ∧ ',' ∉ s

/-- A checklist text round-trips when nonempty, newline-free and
free of trailing whitespace (leading whitespace is preserved by the
checklist regular expression). -/
def wfItem (i : ChecklistItem) : Prop :=
  i.text ≠ [] ∧ '\n' ∉ i.text ∧ lastNotWs i.text = true

/-- A description round-trips when empty, or trim-stable with no line
that the section machine would read as a new section header. -/
def wfDesc (d : Str) : Prop :=
  d = [] ∨
    (headNotWs d = true ∧ lastNotWs d = true ∧
     ∀ l ∈ splitCh '\n' d, ¬ ("## ".toStr <+: jsTrim l))

/-- The fields of a card that the file format can represent exactly.
`id`, `column`, `rank` and `updated` are unrestricted. -/
def WfCard (c : Card) : Prop :=
  wfVal c.title ∧ wfFmVal c.priority ∧ wfFmVal c.created ∧
  (∀ l ∈ c.labels, wfLabel l) ∧ wfDesc c.description ∧
  (∀ i ∈ c.checklist, wfItem i)

/-- `n` consecutive decimal digits. -/
def digitsRun (n : Nat) (s : Str) : Bool :=
  decide (s.length = n) && s.all isDigitCh

/-- The date shape `\d{4}-\d{2}-\d{2}` of the stored `created`
field. -/
def isDateOnly (s : Str) : Bool :=
  match splitCh '-' s with
  | [y, m, d] => digitsRun 4 y && digitsRun 2 m && digitsRun 2 d
  | _ => false

/-- The time-of-day shape `\d{2}:\d{2}:\d{2}\.\d{3}Z` after the
`T`. -/
def isTimePart (s : Str) : Bool :=
  match splitCh ':' s with
  | [h, m, rest] =>
    digitsRun 2 h && digitsRun 2 m && digitsRun 2 (rest.take 2) &&
    decide (rest.drop 2 = '.' :: (rest.drop 3)) && digitsRun 3 ((rest.drop 3).take 3) &&
    decide (rest.drop 6 = "Z".toStr)
  | _ => false

/-- The full ISO-8601 timestamp shape
`\d{4}-\d{2}-\d{2}T\d{2}:\d{2}:\d{2}\.\d{3}Z` that
`Date.prototype.toISOString` produces (and that the test suite checks
`created` and `updated` against). -/
def isFullIso (s : Str) : Bool :=
  isDateOnly (s.takeWhile (fun c => c ≠ 'T')) &&
  (match s.dropWhile (fun c => c ≠ 'T') with
   | 'T' :: rest => isTimePart rest
   | _ => false)

/-- State of the debounced render scheduler in `watch.ts`: the
debounce timer armed flag, the `isRendering` and `pendingRender`
flags, and a ghost count of render callbacks currently in flight. -/
structure WState where
  timerSet : Bool := false
  isRendering : Bool := false
  pendingRender : Bool := false
  inflight : Nat := 0
deriving DecidableEq, Repr

/-- Events of the watcher event loop: a qualifying filesystem change
(`scheduleRender` rearms the debounce timer), the debounce timer
callback firing, and the awaited render callback completing. -/
inductive WEvent
  | change
  | timerFire
  | renderFinish
deriving DecidableEq, Repr

/-- One event-loop step of `scheduleRender`.  A change resets and arms
the timer.  A firing timer marks a render pending when one is in
flight, and otherwise starts a render.  A finishing render clears
`isRendering` and, when a render is pending, consumes the flag and
rearms the timer (the `finally` block calls `scheduleRender`).
`none` marks events that cannot occur (no timer armed, no render in
flight). -/
def wStep : WState → WEvent → Option WState
  | s, .change => some { s with timerSet := true }
  | s, .timerFire =>
    if s.timerSet then
      if s.isRendering then
        some { s with timerSet := false, pendingRender := true }
      else
        some { s with timerSet := false, isRendering := true, inflight := s.inflight + 1 }
    else none
  | s, .renderFinish =>
    if s.isRendering then
      some { s with
              isRendering := false
              inflight := s.inflight - 1
              pendingRender := false
              timerSet := if s.pendingRender then true else s.timerSet }
    else none

/-- Watcher states reachable from the idle state after the initial
render. -/
inductive WReach : WState → Prop
  | init : WReach {}
  | step {s s' : WState} {e : WEvent} : WReach s → wStep s e = some s' → WReach s'


/-- The frontmatter lines between the two delimiters of
`serializeCard` output. -/
def fmLines (c : Card) (now : Str) : List Str :=
  ["priority: ".toStr ++ (if c.priority = [] then "medium".toStr else c.priority),
   if c.labels.length > 0 then
     "labels: ".toStr ++ List.intercalate ", ".toStr c.labels
   else "labels:".toStr,
   "created: ".toStr ++
     (if c.created = [] then now.takeWhile (fun x => x ≠ 'T') else c.created)] ++
  (match c.rank with
   | some n => ["rank: ".toStr ++ intToStr n]
   | none => [])

/-- The body lines of `serializeCard` output with the description kept
as the single element the source pushes. -/
def bodyLines0 (c : Card) : List Str :=
  ["# ".toStr ++ (if c.title = [] then "Untitled".toStr else c.title)] ++
  (if c.description ≠ [] then
    [[], "## Description".toStr, c.description] else []) ++
  (if c.checklist ≠ [] then
    [[], "## Checklist".toStr] ++ c.checklist.map itemLine else [])

/-- The body lines of `serializeCard` output with the description
split into its lines, as the parser sees them. -/
def bodyLines (c : Card) : List Str :=
  ["# ".toStr ++ (if c.title = [] then "Untitled".toStr else c.title)] ++
  (if c.description ≠ [] then
    [[], "## Description".toStr] ++ splitCh '\n' c.description else []) ++
  (if c.checklist ≠ [] then
    [[], "## Checklist".toStr] ++ c.checklist.map itemLine else [])

/-- The storage key of a card: column directory and id. -/
def cardKey (c : Card) : Str × Str := (c.column, c.id)

/-- The `(column, priority)` group a ranking operation works on. -/
def groupOf (cards : List Card) (col pri : Str) : List Card :=
  cards.filter (fun c => c.column = col && c.priority = pri)

/-- A line whose trimmed form the body walk reads as a section
header (`## Description`, `## Checklist` or any other `## ` line). -/
def sectionHeaderLine (line : Str) : Prop := ("## ".toStr) <+: jsTrim line

/-- A line that the body walk captures as the title: its trimmed form
starts with a hash heading marker while no title has been captured. -/
def titleCaptureLine (acc : BodyAcc) (line : Str) : Prop :=
  ("# ".toStr) <+: jsTrim line ∧ acc.title = []

/-- Fixture for the three-card ranking scenario of §8: a `todo` card
with priority `medium`, no labels, no description and no checklist. -/
def c2Card (id title created : Str) (rank : Option Int) : Card :=
  { id := id, title := title, priority := "medium".toStr, labels := []
    created := created, updated := none, description := [], checklist := []
    column := "todo".toStr, rank := rank }

/-- Fixture board state for the ranking scenario: one `todo` column
holding the serialized files of three cards. -/
def c2Fs (a b c : Card) (n : Str) : FsState :=
  { columns := ["todo".toStr]
    files := [⟨"todo".toStr, a.id ++ ".md".toStr, serializeCard a n⟩,
              ⟨"todo".toStr, b.id ++ ".md".toStr, serializeCard b n⟩,
              ⟨"todo".toStr, c.id ++ ".md".toStr, serializeCard c n⟩] }

theorem intercalate_cons (s l : Str) (ls : List Str) :
    List.intercalate s (l :: ls) =
      if ls = [] then l else l ++ s ++ List.intercalate s ls := by
  cases ls with
  | nil => simp [List.intercalate]
  | cons y ys => simp [List.intercalate, List.intersperse]

theorem splitCh_ne_nil (c : Char) (s : Str) : splitCh c s ≠ [] := by
  induction s with
  | nil => simp [splitCh]
  | cons a rest ih =>
    simp only [splitCh]
    cases h : splitCh c rest with
    | nil => exact absurd h ih
    | cons hd tl => by_cases hac : a = c <;> simp [hac]

theorem splitCh_exists_cons (c : Char) (s : Str) :
    ∃ hd tl, splitCh c s = hd :: tl := by
  cases h : splitCh c s with
  | nil => exact absurd h (splitCh_ne_nil c s)
  | cons x y => exact ⟨x, y, rfl⟩

theorem splitCh_cons_eq (c a : Char) (rest : Str) {hd : Str} {tl : List Str}
    (h : splitCh c rest = hd :: tl) :
    splitCh c (a :: rest) = if a = c then [] :: hd :: tl else (a :: hd) :: tl := by
  simp only [splitCh, h]

theorem joinCh_splitCh (c : Char) (s : Str) :
    List.intercalate [c] (splitCh c s) = s := by
  induction s with
  | nil => simp [splitCh, List.intercalate]
  | cons a rest ih =>
    obtain ⟨hd, tl, h⟩ := splitCh_exists_cons c rest
    rw [h] at ih
    rw [splitCh_cons_eq c a rest h]
    by_cases hac : a = c
    · rw [if_pos hac, intercalate_cons, if_neg (by simp)]
      simp [ih, hac]
    · rw [if_neg hac]
      cases tl with
      | nil =>
        rw [intercalate_cons, if_pos rfl]
        rw [intercalate_cons, if_pos rfl] at ih
        rw [ih]
      | cons t ts =>
        rw [intercalate_cons, if_neg (by simp)]
        rw [intercalate_cons, if_neg (by simp)] at ih
        rw [← ih]
        simp

theorem splitCh_no_sep (c : Char) (l : Str) (h : c ∉ l) : splitCh c l = [l] := by
  induction l with
  | nil => simp [splitCh]
  | cons a rest ih =>
    simp only [List.mem_cons, not_or] at h
    rw [splitCh_cons_eq c a rest (ih h.2),
      if_neg (fun hc : a = c => h.1 hc.symm)]

theorem splitCh_append_sep (c : Char) (l r : Str) (h : c ∉ l) :
    splitCh c (l ++ c :: r) = l :: splitCh c r := by
  induction l with
  | nil =>
    obtain ⟨hd, tl, hr⟩ := splitCh_exists_cons c r
    simp only [List.nil_append]
    rw [splitCh_cons_eq c c r hr, if_pos rfl, hr]
  | cons a l' ih =>
    simp only [List.mem_cons, not_or] at h
    obtain ⟨hd, tl, hl⟩ := splitCh_exists_cons c (l' ++ c :: r)
    have step := ih h.2
    rw [hl] at step
    simp only [List.cons_append]
    rw [splitCh_cons_eq c a (l' ++ c :: r) hl,
      if_neg (fun hc : a = c => h.1 hc.symm)]
    injection step with h1 h2
    rw [h1, h2]

theorem splitCh_intercalate (c : Char) (ls : List Str) (hne : ls ≠ [])
    (h : ∀ l ∈ ls, c ∉ l) :
    splitCh c (List.intercalate [c] ls) = ls := by
  induction ls with
  | nil => exact absurd rfl hne
  | cons l ls' ih =>
    cases ls' with
    | nil => simpa [intercalate_cons] using splitCh_no_sep c l (h l (by simp))
    | cons m ms =>
      rw [intercalate_cons]
      simp only [if_neg (by simp : (m :: ms : List Str) ≠ [])]
      have hl : c ∉ l := h l (by simp)
      have hrw : l ++ [c] ++ List.intercalate [c] (m :: ms) =
          l ++ c :: List.intercalate [c] (m :: ms) := by simp
      rw [hrw, splitCh_append_sep c _ _ hl,
        ih (by simp) (fun x hx => h x (List.mem_cons_of_mem _ hx))]

theorem mem_splitCh (c : Char) (s l : Str) (h : l ∈ splitCh c s) : c ∉ l := by
  induction s generalizing l with
  | nil =>
    simp [splitCh] at h
    simp [h]
  | cons a rest ih =>
    obtain ⟨hd, tl, hr⟩ := splitCh_exists_cons c rest
    rw [splitCh_cons_eq c a rest hr] at h
    by_cases hac : a = c
    · rw [if_pos hac] at h
      rcases List.mem_cons.mp h with rfl | h2
      · simp
      · exact ih l (by rw [hr]; exact h2)
    · rw [if_neg hac] at h
      rcases List.mem_cons.mp h with rfl | h2
      · intro hm
        rcases List.mem_cons.mp hm with rfl | hm2
        · exact hac rfl
        · exact ih hd (by rw [hr]; exact List.mem_cons_self hd tl) hm2
      · exact ih l (by rw [hr]; exact List.mem_cons_of_mem hd h2)

theorem jsTrimStart_cons (c : Char) (s : Str) :
    jsTrimStart (c :: s) = if isWs c then jsTrimStart s else c :: s := by
  simp [jsTrimStart, List.dropWhile_cons]

theorem jsTrim_cons_ws {c : Char} (h : isWs c = true) (s : Str) :
    jsTrim (c :: s) = jsTrim s := by
  simp [jsTrim, jsTrimStart_cons, h]

theorem jsTrimEnd_append_ws (s : Str) {c : Char} (h : isWs c = true) :
    jsTrimEnd (s ++ [c]) = jsTrimEnd s := by
  simp [jsTrimEnd, List.dropWhile_cons, h]

theorem headNotWs_trimStart {s : Str} (h : headNotWs s = true) : jsTrimStart s = s := by
  cases s with
  | nil => rfl
  | cons c t =>
    simp only [headNotWs, Bool.not_eq_true'] at h
    simp [jsTrimStart, List.dropWhile_cons, h]

theorem lastNotWs_trimEnd {s : Str} (h : lastNotWs s = true) : jsTrimEnd s = s := by
  unfold lastNotWs at h
  cases hr : s.reverse with
  | nil =>
    have : s = [] := List.reverse_eq_nil_iff.mp hr
    simp [this, jsTrimEnd]
  | cons c t =>
    rw [hr] at h
    simp only [headNotWs, Bool.not_eq_true'] at h
    have : s = (c :: t).reverse := by rw [← hr, List.reverse_reverse]
    rw [this]
    simp [jsTrimEnd, List.dropWhile_cons, h]

theorem jsTrim_of_wf {s : Str} (h1 : headNotWs s = true) (h2 : lastNotWs s = true) :
    jsTrim s = s := by
  unfold jsTrim
  rw [headNotWs_trimStart h1, lastNotWs_trimEnd h2]

theorem jsTrim_append_ws (s : Str) {c : Char} (h : isWs c = true) :
    jsTrim (s ++ [c]) = jsTrim s := by
  unfold jsTrim jsTrimStart
  rw [List.dropWhile_append]
  cases he : (List.dropWhile isWs s).isEmpty
  · simp only [Bool.false_eq_true, if_false]
    exact jsTrimEnd_append_ws _ h
  · simp only [if_true]
    rw [List.isEmpty_iff.mp he]
    simp [List.dropWhile_cons, h, jsTrimEnd]

theorem headNotWs_cons_append {c : Char} (h : isWs c = false) (x y : Str) :
    headNotWs ((c :: x) ++ y) = true := by
  simp [headNotWs, h]

theorem lastNotWs_append {y : Str} (hy : y ≠ []) (x : Str) :
    lastNotWs (x ++ y) = lastNotWs y := by
  unfold lastNotWs
  rw [List.reverse_append]
  cases hr : y.reverse with
  | nil => exact absurd (List.reverse_eq_nil_iff.mp hr) hy
  | cons c t => simp [headNotWs]

theorem lastNotWs_snoc (x : Str) (c : Char) :
    lastNotWs (x ++ [c]) = !isWs c := by
  unfold lastNotWs
  rw [List.reverse_append]
  simp [headNotWs]

theorem isPrefixOf_self_append (l x : Str) : l.isPrefixOf (l ++ x) = true := by
  simp [List.isPrefixOf_iff_prefix]

theorem prefix_of_append_of_le {sub x y : Str} (h : sub <+: x ++ y)
    (hl : sub.length ≤ x.length) : sub <+: x := by
  rw [List.prefix_iff_eq_take] at h ⊢
  rwa [List.take_append_eq_append_take, Nat.sub_eq_zero_of_le hl, List.take_zero,
    List.append_nil] at h

theorem mem_of_prefix_length_lt {sub x : Str} {c : Char} {y : Str}
    (h : sub <+: x ++ c :: y) (hl : x.length < sub.length) : c ∈ sub := by
  rw [List.prefix_iff_eq_take] at h
  rw [h, List.take_append_eq_append_take]
  refine List.mem_append_right _ ?_
  cases hn : sub.length - x.length with
  | zero => omega
  | succ k =>
    simp only [List.take_succ_cons]
    exact List.mem_cons_self _ _

theorem findSub_of_prefix {sub s : Str} (h : sub.isPrefixOf s = true) :
    findSub sub s = some 0 := by
  cases s with
  | nil =>
    have : sub = [] := by
      cases sub with
      | nil => rfl
      | cons a t => simp [List.isPrefixOf] at h
    simp [findSub, this]
  | cons c rest => simp [findSub, h]

theorem infix_cons_self {sub : Str} {x : Str} (c : Char) (h : sub <:+: x) :
    sub <:+: c :: x := List.infix_cons h

theorem infix_append_cons_split {sub : Str} {c : Char} (hc : c ∉ sub) :
    ∀ {xs ys : Str}, sub <:+: (xs ++ c :: ys) → sub <:+: xs ∨ sub <:+: ys := by
  intro xs
  induction xs with
  | nil =>
    intro ys h
    simp only [List.nil_append] at h
    rcases List.infix_cons_iff.mp h with hp | hi
    · cases sub with
      | nil => exact Or.inl List.nil_infix
      | cons s0 st =>
        have h0 : s0 = c := (List.cons_prefix_cons.mp hp).1
        exact absurd (h0 ▸ List.mem_cons_self s0 st) hc
    · exact Or.inr hi
  | cons x xs' ih =>
    intro ys h
    have h' : sub <:+: x :: (xs' ++ c :: ys) := by simpa using h
    rcases List.infix_cons_iff.mp h' with hp | hi
    · by_cases hl : sub.length ≤ (x :: xs').length
      · have hp2 : sub <+: (x :: xs') ++ c :: ys := by simpa using hp
        exact Or.inl ((prefix_of_append_of_le hp2 hl).isInfix)
      · have hp2 : sub <+: (x :: xs') ++ c :: ys := by simpa using hp
        exact absurd (mem_of_prefix_length_lt hp2 (by omega)) hc
    · rcases ih hi with h1 | h2
      · exact Or.inl (infix_cons_self x h1)
      · exact Or.inr h2

theorem dash3_chars : dash3 = ['-', '-', '-'] := by decide

theorem twoDash_chars : "--".toStr = ['-', '-'] := by decide

theorem findSub_dash3 (g rest : Str)
    (hg : ¬ (dash3 <:+: (g ++ "--".toStr))) :
    findSub dash3 (g ++ (dash3 ++ rest)) = some g.length := by
  induction g with
  | nil =>
    simp only [List.nil_append, List.length_nil]
    exact findSub_of_prefix (isPrefixOf_self_append dash3 rest)
  | cons c g' ih =>
    have hg' : ¬ (dash3 <:+: (g' ++ "--".toStr)) := fun hi =>
      hg (infix_cons_self c hi)
    have hfalse : dash3.isPrefixOf (c :: (g' ++ (dash3 ++ rest))) = false := by
      rw [Bool.eq_false_iff]
      intro hb
      have hp : dash3 <+: c :: (g' ++ (dash3 ++ rest)) :=
        List.isPrefixOf_iff_prefix.mp hb
      have heq : c :: (g' ++ (dash3 ++ rest)) =
          ((c :: g') ++ "--".toStr) ++ ('-' :: rest) := by
        rw [dash3_chars, twoDash_chars]
        simp
      rw [heq] at hp
      have hp2 : dash3 <+: (c :: g') ++ "--".toStr :=
        prefix_of_append_of_le hp (by rw [dash3_chars, twoDash_chars]; simp)
      exact hg hp2.isInfix
    have : (c :: g') ++ (dash3 ++ rest) = c :: (g' ++ (dash3 ++ rest)) := by simp
    rw [this, findSub, hfalse]
    simp [ih hg']

theorem findSub_colon (k v : Str) (hk : ':' ∉ k) :
    findSub [':'] (k ++ ':' :: v) = some k.length := by
  induction k with
  | nil =>
    refine findSub_of_prefix ?_
    simp [List.isPrefixOf]
  | cons c k' ih =>
    simp only [List.mem_cons, not_or] at hk
    have hfalse : ([':'] : Str).isPrefixOf (c :: (k' ++ ':' :: v)) = false := by
      rw [Bool.eq_false_iff]
      intro hb
      have hp := List.isPrefixOf_iff_prefix.mp hb
      exact hk.1 (List.cons_prefix_cons.mp hp).1
    have : (c :: k') ++ ':' :: v = c :: (k' ++ ':' :: v) := by simp
    rw [this, findSub, hfalse]
    simp [ih hk.2]

theorem hasDash3_iff (s : Str) : hasDash3 s = true ↔ dash3 <:+: s := by
  induction s with
  | nil =>
    simp only [hasDash3, List.infix_nil]
    rw [dash3_chars]
    simp
  | cons a rest ih =>
    simp only [hasDash3, Bool.or_eq_true, Bool.and_eq_true, decide_eq_true_eq, ih]
    rw [List.infix_cons_iff]
    constructor
    · rintro (⟨rfl, hpre⟩ | hi)
      · left
        rw [dash3_chars, List.cons_prefix_cons]
        refine ⟨rfl, ?_⟩
        have := List.isPrefixOf_iff_prefix.mp hpre
        rwa [twoDash_chars] at this
      · right; exact hi
    · rintro (hp | hi)
      · left
        rw [dash3_chars, List.cons_prefix_cons] at hp
        refine ⟨hp.1.symm, ?_⟩
        rw [List.isPrefixOf_iff_prefix, twoDash_chars]
        exact hp.2
      · right; exact hi

theorem hasDash3_append_no_dash {s : Str} (hs : '-' ∉ s) (t : Str) :
    hasDash3 (s ++ t) = hasDash3 t := by
  induction s with
  | nil => simp
  | cons c s' ih =>
    simp only [List.mem_cons, not_or] at hs
    simp only [List.cons_append, hasDash3]
    have hd : decide (c = '-') = false := by
      simp only [decide_eq_false_iff_not]
      exact fun h => hs.1 h.symm
    rw [hd]
    have ih2 := ih hs.2
    simp only [List.append_eq] at ih2 ⊢
    rw [ih2]
    simp

theorem not_dash_of_digit {c : Char} (h : isDigitCh c = true) : c ≠ '-' := by
  intro hc
  subst hc
  simp [isDigitCh] at h

theorem not_ws_of_digit {c : Char} (h : isDigitCh c = true) : isWs c = false := by
  revert h
  simp only [isDigitCh, isWs, Bool.and_eq_true, decide_eq_true_eq, Bool.or_eq_true]
  intro h
  rcases h with ⟨h1, h2⟩
  by_contra hw
  simp only [Bool.not_eq_false, Bool.or_eq_true, decide_eq_true_eq] at hw
  rcases hw with ((rfl | rfl) | rfl) | rfl <;> revert h1 h2 <;> decide

theorem hasDash3_of_digits {s : Str} (hs : ∀ c ∈ s, isDigitCh c = true) :
    hasDash3 s = false := by
  have hnd : '-' ∉ s := fun hm => not_dash_of_digit (hs '-' hm) rfl
  have := hasDash3_append_no_dash hnd []
  simpa using this

theorem natToStrAux_congr (n : Nat) : ∀ f₁ f₂, n < f₁ → n < f₂ →
    natToStrAux f₁ n = natToStrAux f₂ n := by
  induction n using Nat.strong_induction_on with
  | _ n ih =>
    intro f₁ f₂ h₁ h₂
    cases f₁ with
    | zero => omega
    | succ g₁ =>
      cases f₂ with
      | zero => omega
      | succ g₂ =>
        simp only [natToStrAux]
        by_cases h10 : n < 10
        · simp [h10]
        · have hdiv : n / 10 < n := Nat.div_lt_self (by omega) (by omega)
          simp only [if_neg h10]
          rw [ih (n / 10) hdiv g₁ g₂ (by omega) (by omega)]

theorem natToStr_eq (n : Nat) :
    natToStr n = if n < 10 then [digitChar n]
      else natToStr (n / 10) ++ [digitChar (n % 10)] := by
  unfold natToStr
  rw [natToStrAux]
  by_cases h10 : n < 10
  · rw [if_pos h10, if_pos h10]
  · have hdiv : n / 10 < n := Nat.div_lt_self (by omega) (by omega)
    rw [if_neg h10, if_neg h10]
    congr 1
    exact natToStrAux_congr (n / 10) n (n / 10 + 1) (by omega) (by omega)

theorem digitChar_digit {d : Nat} (h : d < 10) : isDigitCh (digitChar d) = true := by
  interval_cases d <;> decide

theorem digitVal_digitChar {d : Nat} (h : d < 10) : digitVal (digitChar d) = d := by
  interval_cases d <;> decide

theorem mem_natToStr_digit {n : Nat} {c : Char} (h : c ∈ natToStr n) :
    isDigitCh c = true := by
  induction n using Nat.strong_induction_on with
  | _ n ih =>
    rw [natToStr_eq] at h
    by_cases h10 : n < 10
    · rw [if_pos h10] at h
      simp only [List.mem_singleton] at h
      exact h ▸ digitChar_digit h10
    · rw [if_neg h10] at h
      rcases List.mem_append.mp h with h1 | h2
      · exact ih (n / 10) (Nat.div_lt_self (by omega) (by omega)) h1
      · simp only [List.mem_singleton] at h2
        exact h2 ▸ digitChar_digit (Nat.mod_lt _ (by omega))

theorem natToStr_ne_nil (n : Nat) : natToStr n ≠ [] := by
  rw [natToStr_eq]
  by_cases h10 : n < 10 <;> simp [h10]

theorem parseDigits_append (a : Str) (c : Char) :
    parseDigits (a ++ [c]) = parseDigits a * 10 + digitVal c := by
  simp [parseDigits, List.foldl_append]

theorem parseDigits_natToStr (n : Nat) : parseDigits (natToStr n) = n := by
  induction n using Nat.strong_induction_on with
  | _ n ih =>
    rw [natToStr_eq]
    by_cases h10 : n < 10
    · rw [if_pos h10]
      simp [parseDigits, digitVal_digitChar h10]
    · rw [if_neg h10, parseDigits_append,
        ih (n / 10) (Nat.div_lt_self (by omega) (by omega)),
        digitVal_digitChar (Nat.mod_lt _ (by omega))]
      omega

theorem takeWhile_all {p : Char → Bool} {s : Str} (h : ∀ c ∈ s, p c = true) :
    s.takeWhile p = s :=
  List.takeWhile_eq_self_iff.mpr h

theorem dropWhile_not_head {p : Char → Bool} {c : Char} {s : Str}
    (h : p c = false) : (c :: s).dropWhile p = c :: s := by
  simp [List.dropWhile_cons, h]

theorem jsParseInt_digits {s : Str} (hne : s ≠ [])
    (hs : ∀ c ∈ s, isDigitCh c = true) :
    jsParseInt s = some ((parseDigits s : Nat) : Int) := by
  cases s with
  | nil => exact absurd rfl hne
  | cons c t =>
    have hc := hs c (List.mem_cons_self c t)
    have hcw : isWs c = false := not_ws_of_digit hc
    simp only [jsParseInt, dropWhile_not_head hcw]
    have hmatch : (match c :: t with
        | '-' :: r => ((-1 : Int), r)
        | '+' :: r => ((1 : Int), r)
        | r => ((1 : Int), r)) = ((1 : Int), c :: t) := by
      have hd1 : c ≠ '-' := not_dash_of_digit hc
      have hd2 : c ≠ '+' := by
        intro hp
        subst hp
        simp [isDigitCh] at hc
      split
      next r heq =>
        injection heq with e1 e2
        exact absurd e1 hd1
      next r heq =>
        injection heq with e1 e2
        exact absurd e1 hd2
      next r hne1 hne2 => rfl
    rw [hmatch]
    simp only [takeWhile_all hs]
    rw [if_neg (by simp [hne])]
    simp

theorem jsParseInt_intToStr (n : Int) : jsParseInt (intToStr n) = some n := by
  unfold intToStr
  by_cases hn : n < 0
  · rw [if_pos hn]
    have hdig : ∀ c ∈ natToStr n.natAbs, isDigitCh c = true :=
      fun c hm => mem_natToStr_digit hm
    obtain ⟨d, ds, hds⟩ : ∃ d ds, natToStr n.natAbs = d :: ds := by
      cases h : natToStr n.natAbs with
      | nil => exact absurd h (natToStr_ne_nil _)
      | cons d ds => exact ⟨d, ds, rfl⟩
    simp only [jsParseInt]
    have hw : isWs '-' = false := by decide
    rw [dropWhile_not_head hw]
    simp only []
    have htw : ('-' :: natToStr n.natAbs).dropWhile isWs = '-' :: natToStr n.natAbs := by
      exact dropWhile_not_head hw
    have : (natToStr n.natAbs).takeWhile isDigitCh = natToStr n.natAbs :=
      takeWhile_all hdig
    rw [this]
    rw [if_neg (by simpa using natToStr_ne_nil n.natAbs)]
    rw [parseDigits_natToStr]
    congr 1
    omega
  · rw [if_neg hn]
    rw [jsParseInt_digits (natToStr_ne_nil n.toNat)
      (fun c hm => mem_natToStr_digit hm), parseDigits_natToStr]
    rw [Int.toNat_of_nonneg (by omega)]

theorem joinNl_append {xs ys : List Str} (hxs : xs ≠ []) (hys : ys ≠ []) :
    joinNl (xs ++ ys) = joinNl xs ++ '\n' :: joinNl ys := by
  induction xs with
  | nil => exact absurd rfl hxs
  | cons x xs' ih =>
    cases xs' with
    | nil =>
      unfold joinNl
      rw [List.singleton_append, intercalate_cons, if_neg hys,
        intercalate_cons, if_pos rfl]
      simp
    | cons y ys' =>
      unfold joinNl at ih ⊢
      rw [List.cons_append, intercalate_cons, if_neg (by simp),
        intercalate_cons, if_neg (by simp)]
      rw [ih (by simp)]
      simp

theorem joinNl_cons (x : Str) (xs : List Str) (h : xs ≠ []) :
    joinNl (x :: xs) = x ++ '\n' :: joinNl xs := by
  unfold joinNl
  rw [intercalate_cons, if_neg h]
  simp

theorem joinNl_singleton (x : Str) : joinNl [x] = x := by
  simp [joinNl, List.intercalate]

theorem serializeCard_structure (c : Card) (now : Str) :
    serializeCard c now =
      (dash3 ++ '\n' :: (joinNl (fmLines c now) ++ ['\n'])) ++
      (dash3 ++ '\n' :: '\n' :: (joinNl (bodyLines0 c) ++ ['\n'])) := by
  unfold serializeCard fmLines bodyLines0 dash3
  by_cases hd : c.description = [] <;> by_cases hc : c.checklist = [] <;>
    cases hrk : c.rank <;>
      simp [hd, hc, joinNl_cons, joinNl_append, joinNl_singleton]

theorem noNl_append {a b : Str} (ha : '\n' ∉ a) (hb : '\n' ∉ b) :
    '\n' ∉ a ++ b :=
  fun h => (List.mem_append.mp h).elim ha hb

theorem headNotWs_append_left {l : Str} (hne : l ≠ []) (hh : headNotWs l = true)
    (x : Str) : headNotWs (l ++ x) = true := by
  cases l with
  | nil => exact absurd rfl hne
  | cons c t => simpa [headNotWs] using hh

theorem lastNotWs_cons {x : Str} (hne : x ≠ []) (c : Char) :
    lastNotWs (c :: x) = lastNotWs x := by
  have : (c :: x) = [c] ++ x := rfl
  rw [this, lastNotWs_append hne]

theorem intercalate_ne_nil (s : Str) (l : Str) (ls : List Str) (h : l ≠ []) :
    List.intercalate s (l :: ls) ≠ [] := by
  rw [intercalate_cons]
  by_cases hls : ls = [] <;> simp [hls, h]

theorem lastNotWs_intercalate (sep : Str)
    (L : List Str) (hne : L ≠ [])
    (h : ∀ l ∈ L, l ≠ [] ∧ lastNotWs l = true) :
    lastNotWs (List.intercalate sep L) = true := by
  induction L with
  | nil => exact absurd rfl hne
  | cons l ls ih =>
    cases ls with
    | nil =>
      rw [intercalate_cons, if_pos rfl]
      exact (h l (by simp)).2
    | cons m ms =>
      rw [intercalate_cons, if_neg (by simp), List.append_assoc]
      have hXne : List.intercalate sep (m :: ms) ≠ [] :=
        intercalate_ne_nil sep m ms (h m (by simp)).1
      rw [lastNotWs_append (fun hx => hXne (List.append_eq_nil.mp hx).2),
        lastNotWs_append hXne]
      exact ih (by simp) (fun x hx => h x (List.mem_cons_of_mem _ hx))

theorem headNotWs_intercalate (sep : Str) (l : Str) (ls : List Str)
    (hl : l ≠ []) (hh : headNotWs l = true) :
    headNotWs (List.intercalate sep (l :: ls)) = true := by
  rw [intercalate_cons]
  by_cases hls : ls = []
  · simpa [hls]
  · rw [if_neg hls, List.append_assoc]
    exact headNotWs_append_left hl hh _

theorem noNl_intercalate {sep : Str} (hsep : '\n' ∉ sep) (L : List Str)
    (h : ∀ l ∈ L, '\n' ∉ l) : '\n' ∉ List.intercalate sep L := by
  induction L with
  | nil => simp [List.intercalate]
  | cons l ls ih =>
    rw [intercalate_cons]
    by_cases hls : ls = []
    · simpa [hls] using h l (by simp)
    · rw [if_neg hls]
      exact noNl_append (noNl_append (h l (by simp)) hsep)
        (ih (fun x hx => h x (List.mem_cons_of_mem _ hx)))

theorem not_infix_dash3_intercalate {sep : Str} {c0 : Char}
    (hsep : sep = [c0] ∨ ∃ c1, sep = [c0] ++ [c1])
    (hc0 : c0 ∉ dash3) (hc1 : ∀ c1, c1 ∈ sep → c1 ∉ dash3)
    (L : List Str) (h : ∀ l ∈ L, ¬ dash3 <:+: l) :
    ¬ dash3 <:+: List.intercalate sep L := by
  induction L with
  | nil =>
    intro hi
    have he : List.intercalate sep ([] : List Str) = [] := by
      simp [List.intercalate]
    rw [he, List.infix_nil, dash3_chars] at hi
    cases hi
  | cons l ls ih =>
    rw [intercalate_cons]
    by_cases hls : ls = []
    · simpa [hls] using h l (by simp)
    · rw [if_neg hls]
      intro hi
      rcases hsep with hs | ⟨c1, hs⟩
      · subst hs
        have : l ++ [c0] ++ List.intercalate [c0] ls =
            l ++ c0 :: List.intercalate [c0] ls := by simp
        rw [this] at hi
        rcases infix_append_cons_split hc0 hi with h1 | h2
        · exact h l (by simp) h1
        · exact ih (fun x hx => h x (List.mem_cons_of_mem _ hx)) h2
      · subst hs
        have : l ++ ([c0] ++ [c1]) ++ List.intercalate ([c0] ++ [c1]) ls =
            l ++ c0 :: (c1 :: List.intercalate ([c0] ++ [c1]) ls) := by simp
        rw [this] at hi
        rcases infix_append_cons_split hc0 hi with h1 | h2
        · exact h l (by simp) h1
        · have : (c1 :: List.intercalate ([c0] ++ [c1]) ls) =
              [] ++ c1 :: List.intercalate ([c0] ++ [c1]) ls := rfl
          rw [this] at h2
          rcases infix_append_cons_split (hc1 c1 (by simp)) h2 with h3 | h4
          · rw [List.infix_nil] at h3
            rw [dash3_chars] at h3
            cases h3
          · exact ih (fun x hx => h x (List.mem_cons_of_mem _ hx)) h4

theorem take_key (k : Str) (v : Str) : (k ++ ':' :: v).take k.length = k :=
  List.take_left k (':' :: v)

theorem drop_key (k : Str) (v : Str) : (k ++ ':' :: v).drop (k.length + 1) = v := by
  rw [List.drop_append_eq_append_drop]
  have h1 : k.drop (k.length + 1) = [] := List.drop_eq_nil_of_le (by omega)
  have h2 : k.length + 1 - k.length = 1 := by omega
  rw [h1, h2]
  simp

theorem jsIndexOf_colon (k v : Str) (hk : ':' ∉ k) :
    jsIndexOf (k ++ ':' :: v) [':'] 0 = some k.length := by
  unfold jsIndexOf
  rw [List.drop_zero, findSub_colon k v hk]
  simp

theorem fmSetLine_generic (fm : Frontmatter) (k v : Str) (hk : ':' ∉ k) :
    fmSetLine fm (k ++ ':' :: v) =
      (if jsTrim k = "labels".toStr then
        { fm with labels := some (if jsTrim v = [] then [] else ((splitCh ',' (jsTrim v)).map jsTrim).filter (fun l => l ≠ [])) }
      else if jsTrim k = "rank".toStr then
        match jsParseInt (jsTrim v) with
        | some n => { fm with rank := some n }
        | none => fm
      else if jsTrim k = "priority".toStr then { fm with priority := some (jsTrim v) }
      else if jsTrim k = "created".toStr then { fm with created := some (jsTrim v) }
      else { fm with extra := fm.extra ++ [(jsTrim k, jsTrim v)] }) := by
  unfold fmSetLine
  rw [jsIndexOf_colon k v hk]
  simp only [take_key, drop_key]

theorem fmSetLine_priority (fm : Frontmatter) (P : Str)
    (hh : headNotWs P = true) (hl : lastNotWs P = true) :
    fmSetLine fm ("priority: ".toStr ++ P) = { fm with priority := some P } := by
  have h1 : "priority: ".toStr ++ P = "priority".toStr ++ ':' :: (' ' :: P) := by
    have : ("priority: ".toStr : Str) = "priority".toStr ++ [':', ' '] := by decide
    rw [this, List.append_assoc]
    rfl
  rw [h1, fmSetLine_generic fm _ _ (by decide)]
  have hv : jsTrim (' ' :: P) = P := by
    rw [jsTrim_cons_ws (by decide), jsTrim_of_wf hh hl]
  have hkk : jsTrim ("priority".toStr) = "priority".toStr := by decide
  rw [hkk, hv]
  rw [if_neg (by decide), if_neg (by decide), if_pos rfl]

theorem fmSetLine_created (fm : Frontmatter) (C : Str)
    (hh : headNotWs C = true) (hl : lastNotWs C = true) :
    fmSetLine fm ("created: ".toStr ++ C) = { fm with created := some C } := by
  have h1 : "created: ".toStr ++ C = "created".toStr ++ ':' :: (' ' :: C) := by
    have : ("created: ".toStr : Str) = "created".toStr ++ [':', ' '] := by decide
    rw [this, List.append_assoc]
    rfl
  rw [h1, fmSetLine_generic fm _ _ (by decide)]
  have hv : jsTrim (' ' :: C) = C := by
    rw [jsTrim_cons_ws (by decide), jsTrim_of_wf hh hl]
  have hkk : jsTrim ("created".toStr) = "created".toStr := by decide
  rw [hkk, hv]
  rw [if_neg (by decide), if_neg (by decide), if_neg (by decide), if_pos rfl]

theorem headNotWs_intToStr (n : Int) : headNotWs (intToStr n) = true := by
  unfold intToStr
  by_cases hn : n < 0
  · rw [if_pos hn]
    simp [headNotWs, isWs]
  · rw [if_neg hn]
    cases h : natToStr n.toNat with
    | nil => exact absurd h (natToStr_ne_nil _)
    | cons c t =>
      have hc : isDigitCh c = true := mem_natToStr_digit (h ▸ List.mem_cons_self c t)
      simp [headNotWs, not_ws_of_digit hc]

theorem lastNotWs_intToStr (n : Int) : lastNotWs (intToStr n) = true := by
  have key : ∀ m : Nat, lastNotWs (natToStr m) = true := by
    intro m
    cases h : (natToStr m).reverse with
    | nil =>
      exact absurd (List.reverse_eq_nil_iff.mp h) (natToStr_ne_nil m)
    | cons c t =>
      have hc : c ∈ natToStr m := by
        rw [← List.mem_reverse, h]
        exact List.mem_cons_self c t
      unfold lastNotWs
      rw [h]
      simp [headNotWs, not_ws_of_digit (mem_natToStr_digit hc)]
  unfold intToStr
  by_cases hn : n < 0
  · rw [if_pos hn, lastNotWs_cons (natToStr_ne_nil _)]
    exact key n.natAbs
  · rw [if_neg hn]
    exact key n.toNat

theorem fmSetLine_rank (fm : Frontmatter) (n : Int) :
    fmSetLine fm ("rank: ".toStr ++ intToStr n) = { fm with rank := some n } := by
  have h1 : "rank: ".toStr ++ intToStr n = "rank".toStr ++ ':' :: (' ' :: intToStr n) := by
    have : ("rank: ".toStr : Str) = "rank".toStr ++ [':', ' '] := by decide
    rw [this, List.append_assoc]
    rfl
  rw [h1, fmSetLine_generic fm _ _ (by decide)]
  have hv : jsTrim (' ' :: intToStr n) = intToStr n := by
    rw [jsTrim_cons_ws (by decide),
      jsTrim_of_wf (headNotWs_intToStr n) (lastNotWs_intToStr n)]
  have hkk : jsTrim ("rank".toStr) = "rank".toStr := by decide
  rw [hkk, hv]
  rw [if_neg (by decide), if_pos rfl, jsParseInt_intToStr]

theorem splitCh_comma_intercalate (l : Str) (ls : List Str)
    (h : ∀ x ∈ l :: ls, ',' ∉ x) :
    splitCh ',' (List.intercalate ", ".toStr (l :: ls)) =
      l :: ls.map (fun x => ' ' :: x) := by
  induction ls generalizing l with
  | nil =>
    rw [intercalate_cons, if_pos rfl]
    simpa using splitCh_no_sep ',' l (h l (by simp))
  | cons m ms ih =>
    rw [intercalate_cons, if_neg (by simp)]
    have hsep : l ++ ", ".toStr ++ List.intercalate ", ".toStr (m :: ms) =
        l ++ ',' :: (' ' :: List.intercalate ", ".toStr (m :: ms)) := by
      have h2 : (", ".toStr : Str) = [',', ' '] := by decide
      rw [h2, List.append_assoc]
      rfl
    rw [hsep, splitCh_append_sep ',' _ _ (h l (by simp))]
    have ihm : splitCh ',' (List.intercalate ", ".toStr (m :: ms)) =
        m :: ms.map (fun x => ' ' :: x) :=
      ih m (fun x hx => h x (List.mem_cons_of_mem l hx))
    obtain ⟨hd, tl, hX⟩ := splitCh_exists_cons ',' (List.intercalate ", ".toStr (m :: ms))
    rw [splitCh_cons_eq ',' ' ' _ hX, if_neg (by decide)]
    have hinj := hX.symm.trans ihm
    injection hinj with e1 e2
    rw [e1, e2]
    rfl

theorem fmSetLine_labels_empty (fm : Frontmatter) :
    fmSetLine fm ("labels:".toStr) = { fm with labels := some [] } := by
  have h1 : ("labels:".toStr : Str) = "labels".toStr ++ ':' :: [] := by decide
  rw [h1, fmSetLine_generic fm _ _ (by decide)]
  have hkk : jsTrim ("labels".toStr) = "labels".toStr := by decide
  rw [hkk, if_pos rfl]
  have hv : jsTrim ([] : Str) = [] := by decide
  rw [hv, if_pos rfl]

theorem fmSetLine_labels (fm : Frontmatter) (L : List Str) (hne : L ≠ [])
    (h : ∀ l ∈ L, wfLabel l) :
    fmSetLine fm ("labels: ".toStr ++ List.intercalate ", ".toStr L) =
      { fm with labels := some L } := by
  obtain ⟨l, ls, rfl⟩ := List.exists_cons_of_ne_nil hne
  have hlw := h l (by simp)
  obtain ⟨⟨⟨hlne, hlh, hll, hln⟩, hld⟩, hlc⟩ := hlw
  have h1 : "labels: ".toStr ++ List.intercalate ", ".toStr (l :: ls) =
      "labels".toStr ++ ':' :: (' ' :: List.intercalate ", ".toStr (l :: ls)) := by
    have h2 : ("labels: ".toStr : Str) = "labels".toStr ++ [':', ' '] := by decide
    rw [h2, List.append_assoc]
    rfl
  rw [h1, fmSetLine_generic fm _ _ (by decide)]
  have hkk : jsTrim ("labels".toStr) = "labels".toStr := by decide
  rw [hkk, if_pos rfl]
  have hJh : headNotWs (List.intercalate ", ".toStr (l :: ls)) = true :=
    headNotWs_intercalate _ l ls hlne hlh
  have hJl : lastNotWs (List.intercalate ", ".toStr (l :: ls)) = true :=
    lastNotWs_intercalate _ (l :: ls) (by simp)
      (fun x hx => ⟨((h x hx).1.1).1, ((h x hx).1.1).2.2.1⟩)
  have hv : jsTrim (' ' :: List.intercalate ", ".toStr (l :: ls)) =
      List.intercalate ", ".toStr (l :: ls) := by
    rw [jsTrim_cons_ws (by decide), jsTrim_of_wf hJh hJl]
  rw [hv]
  have hJne : List.intercalate ", ".toStr (l :: ls) ≠ [] :=
    intercalate_ne_nil _ l ls hlne
  rw [if_neg hJne]
  rw [splitCh_comma_intercalate l ls (fun x hx => (h x hx).2)]
  have hmap : ((l :: ls.map (fun x => ' ' :: x)).map jsTrim) = l :: ls := by
    rw [List.map_cons]
    rw [jsTrim_of_wf hlh hll]
    congr 1
    rw [List.map_map]
    have : ∀ x ∈ ls, (jsTrim ∘ fun x => ' ' :: x) x = id x := by
      intro x hx
      obtain ⟨⟨⟨hxne, hxh, hxl, hxn⟩, hxd⟩, hxc⟩ := h x (List.mem_cons_of_mem l hx)
      simp only [Function.comp_apply, id_eq]
      rw [jsTrim_cons_ws (by decide), jsTrim_of_wf hxh hxl]
    rw [List.map_congr_left this, List.map_id]
  rw [hmap]
  have hfilter : (l :: ls).filter (fun x => x ≠ []) = l :: ls := by
    rw [List.filter_eq_self]
    intro a ha
    have := (h a ha).1.1.1
    simpa using this
  rw [hfilter]

theorem foldl_fmLines (c : Card) (now : Str) (h : WfCard c) :
    (fmLines c now).foldl fmSetLine {} =
      { priority := some c.priority, labels := some c.labels,
        created := some c.created, rank := c.rank, extra := [] } := by
  obtain ⟨hT, hP, hC, hL, hD, hK⟩ := h
  obtain ⟨⟨hPne, hPh, hPl, hPn⟩, hPd⟩ := hP
  obtain ⟨⟨hCne, hCh, hCl, hCn⟩, hCd⟩ := hC
  unfold fmLines
  rw [if_neg hPne, if_neg hCne]
  have hlabline : fmSetLine { priority := some c.priority : Frontmatter }
      (if c.labels.length > 0 then
        "labels: ".toStr ++ List.intercalate ", ".toStr c.labels
      else "labels:".toStr) =
      { priority := some c.priority, labels := some c.labels } := by
    cases hlab : c.labels with
    | nil =>
      simpa using fmSetLine_labels_empty
        ({ priority := some c.priority } : Frontmatter)
    | cons x xs =>
      rw [if_pos (by simp)]
      exact fmSetLine_labels _ (x :: xs) (by simp) (fun l hl => hL l (hlab ▸ hl))
  cases hr : c.rank with
  | none =>
    simp only [List.append_nil, List.foldl_cons, List.foldl_nil]
    rw [fmSetLine_priority _ _ hPh hPl, hlabline, fmSetLine_created _ _ hCh hCl]
  | some n =>
    simp only [List.foldl_append, List.foldl_cons, List.foldl_nil]
    rw [fmSetLine_priority _ _ hPh hPl, hlabline, fmSetLine_created _ _ hCh hCl,
      fmSetLine_rank]

theorem not_infix_of_hasDash3_false {s : Str} (h : hasDash3 s = false) :
    ¬ dash3 <:+: s := by
  intro hi
  rw [← hasDash3_iff, h] at hi
  cases hi

theorem noNl_intToStr (n : Int) : '\n' ∉ intToStr n := by
  have key : ∀ m : Nat, '\n' ∉ natToStr m := by
    intro m hm
    have := mem_natToStr_digit hm
    simp [isDigitCh] at this
  unfold intToStr
  by_cases hn : n < 0
  · rw [if_pos hn]
    intro hm
    rcases List.mem_cons.mp hm with he | hm2
    · cases he
    · exact key n.natAbs hm2
  · rw [if_neg hn]
    exact key n.toNat

theorem intToStr_ne_nil (n : Int) : intToStr n ≠ [] := by
  unfold intToStr
  by_cases hn : n < 0
  · simp [hn]
  · simp [hn, natToStr_ne_nil]

theorem hasDash3_intToStr (n : Int) : hasDash3 (intToStr n) = false := by
  have key : ∀ m : Nat, hasDash3 (natToStr m) = false :=
    fun m => hasDash3_of_digits (fun c hc => mem_natToStr_digit hc)
  unfold intToStr
  by_cases hn : n < 0
  · rw [if_pos hn]
    cases hh : natToStr n.natAbs with
    | nil => exact absurd hh (natToStr_ne_nil _)
    | cons d ds =>
      have hd : isDigitCh d = true :=
        mem_natToStr_digit (hh ▸ List.mem_cons_self d ds)
      have hpre : ("--".toStr).isPrefixOf (d :: ds) = false := by
        rw [twoDash_chars, Bool.eq_false_iff]
        intro hb
        have := (List.cons_prefix_cons.mp (List.isPrefixOf_iff_prefix.mp hb)).1
        exact not_dash_of_digit hd this.symm
      have hstep : hasDash3 ('-' :: (d :: ds)) =
          ((decide ('-' = '-') && ("--".toStr).isPrefixOf (d :: ds)) ||
            hasDash3 (d :: ds)) := rfl
      rw [hstep, hpre]
      have := key n.natAbs
      rw [hh] at this
      simp [this]
  · rw [if_neg hn]
    exact key n.toNat

theorem lastNotWs_joinNl_concat (xs : List Str) (x : Str) (hx : x ≠ [])
    (hxl : lastNotWs x = true) : lastNotWs (joinNl (xs ++ [x])) = true := by
  cases xs with
  | nil => simpa [joinNl_singleton] using hxl
  | cons y ys =>
    rw [joinNl_append (by simp) (by simp), joinNl_singleton,
      lastNotWs_append (by simp), lastNotWs_cons hx]
    exact hxl

theorem lastNotWs_last_split {d : Str} (hl : lastNotWs d = true) (hne : d ≠ []) :
    ∃ dinit dlast, splitCh '\n' d = dinit ++ [dlast] ∧ dlast ≠ [] ∧
      lastNotWs dlast = true := by
  rcases List.eq_nil_or_concat (splitCh '\n' d) with hnil | ⟨dinit, dlast, hsplit⟩
  · exact absurd hnil (splitCh_ne_nil '\n' d)
  · rw [List.concat_eq_append] at hsplit
    refine ⟨dinit, dlast, hsplit, ?_⟩
    have hd : d = joinNl (dinit ++ [dlast]) := by
      rw [← hsplit]
      exact (joinCh_splitCh '\n' d).symm
    cases dinit with
    | nil =>
      rw [hd] at hl hne
      simp only [List.nil_append, joinNl_singleton] at hl hne
      exact ⟨hne, hl⟩
    | cons i is =>
      rw [hd, joinNl_append (by simp) (by simp), joinNl_singleton] at hl
      rw [lastNotWs_append (by simp)] at hl
      by_cases hdl : dlast = []
      · subst hdl
        simp [lastNotWs, headNotWs, isWs] at hl
      · rw [lastNotWs_cons hdl] at hl
        exact ⟨hdl, hl⟩

theorem headNotWs_joinNl_cons {x : Str} (hx : x ≠ []) (hh : headNotWs x = true)
    (xs : List Str) : headNotWs (joinNl (x :: xs)) = true := by
  cases xs with
  | nil => simpa [joinNl_singleton] using hh
  | cons y ys =>
    rw [joinNl_cons _ _ (by simp)]
    exact headNotWs_append_left hx hh _

theorem fmLines_ne_nil (c : Card) (now : Str) : fmLines c now ≠ [] := by
  unfold fmLines
  cases c.rank <;> simp

theorem fmLines_noNl (c : Card) (now : Str) (h : WfCard c) :
    ∀ l ∈ fmLines c now, '\n' ∉ l := by
  obtain ⟨hT, ⟨⟨hPne, hPh, hPl, hPn⟩, hPd⟩, ⟨⟨hCne, hCh, hCl, hCn⟩, hCd⟩, hL, hD, hK⟩ := h
  unfold fmLines
  rw [if_neg hPne, if_neg hCne]
  have hlab : '\n' ∉ (if c.labels.length > 0 then
      "labels: ".toStr ++ List.intercalate ", ".toStr c.labels
    else "labels:".toStr) := by
    cases hls : c.labels with
    | nil => simp [List.mem_singleton]; decide
    | cons x xs =>
      rw [if_pos (by simp)]
      refine noNl_append (by decide) ?_
      refine noNl_intercalate (by decide) _ ?_
      intro l hl
      exact (hL l (hls ▸ hl)).1.1.2.2.2
  cases c.rank with
  | none =>
    intro l hl
    simp only [List.append_nil, List.mem_cons, List.not_mem_nil, or_false] at hl
    rcases hl with rfl | rfl | rfl
    · exact noNl_append (by decide) hPn
    · exact hlab
    · exact noNl_append (by decide) hCn
  | some n =>
    intro l hl
    simp only [List.mem_append, List.mem_cons, List.not_mem_nil, or_false,
      List.mem_singleton] at hl
    rcases hl with (rfl | rfl | rfl) | rfl
    · exact noNl_append (by decide) hPn
    · exact hlab
    · exact noNl_append (by decide) hCn
    · exact noNl_append (by decide) (noNl_intToStr n)

theorem fmLines_head (c : Card) (now : Str) (hPne : c.priority ≠ []) :
    headNotWs (joinNl (fmLines c now)) = true := by
  unfold fmLines
  rw [if_neg hPne]
  have hpl : ("priority: ".toStr ++ c.priority) ≠ [] := by
    intro hx
    exact hPne (List.append_eq_nil.mp hx).2
  have hph : headNotWs ("priority: ".toStr ++ c.priority) = true :=
    headNotWs_append_left (by decide) (by decide) _
  cases c.rank with
  | none => exact headNotWs_joinNl_cons hpl hph _
  | some n => exact headNotWs_joinNl_cons hpl hph _

theorem fmLines_last (c : Card) (now : Str) (h : WfCard c) :
    lastNotWs (joinNl (fmLines c now)) = true := by
  obtain ⟨hT, ⟨⟨hPne, hPh, hPl, hPn⟩, hPd⟩, ⟨⟨hCne, hCh, hCl, hCn⟩, hCd⟩, hL, hD, hK⟩ := h
  unfold fmLines
  rw [if_neg hPne, if_neg hCne]
  cases c.rank with
  | none =>
    have hshape : ∀ p l cr : Str, ([p, l, cr] ++ ([] : List Str)) = [p, l] ++ [cr] := by
      intro p l cr
      simp
    rw [hshape]
    refine lastNotWs_joinNl_concat _ _
      (fun hx => hCne (List.append_eq_nil.mp hx).2) ?_
    rw [lastNotWs_append hCne]
    exact hCl
  | some n =>
    refine lastNotWs_joinNl_concat _ _
      (fun hx => intToStr_ne_nil n (List.append_eq_nil.mp hx).2) ?_
    rw [lastNotWs_append (intToStr_ne_nil n)]
    exact lastNotWs_intToStr n

theorem fmLines_noDash3 (c : Card) (now : Str) (h : WfCard c) :
    ¬ dash3 <:+: joinNl (fmLines c now) := by
  obtain ⟨hT, ⟨⟨hPne, hPh, hPl, hPn⟩, hPd⟩, ⟨⟨hCne, hCh, hCl, hCn⟩, hCd⟩, hL, hD, hK⟩ := h
  unfold joinNl
  refine @not_infix_dash3_intercalate _ '\n' (Or.inl rfl)
    (by rw [dash3_chars]; decide) (by intro c1 h1; simp at h1; subst h1; rw [dash3_chars]; decide)
    _ ?_
  unfold fmLines
  rw [if_neg hPne, if_neg hCne]
  have hlab : ¬ dash3 <:+: (if c.labels.length > 0 then
      "labels: ".toStr ++ List.intercalate ", ".toStr c.labels
    else "labels:".toStr) := by
    cases hls : c.labels with
    | nil =>
      simp only [List.length_nil, gt_iff_lt, Nat.lt_irrefl, if_false]
      exact not_infix_of_hasDash3_false (by decide)
    | cons x xs =>
      rw [if_pos (by simp)]
      have hsplit : "labels: ".toStr ++ List.intercalate ", ".toStr (x :: xs) =
          "labels:".toStr ++ ' ' :: List.intercalate ", ".toStr (x :: xs) := by
        have : ("labels: ".toStr : Str) = "labels:".toStr ++ [' '] := by decide
        rw [this, List.append_assoc]
        rfl
      rw [hsplit]
      intro hi
      rcases infix_append_cons_split (by rw [dash3_chars]; decide) hi with h1 | h2
      · exact not_infix_of_hasDash3_false (by decide) h1
      · refine @not_infix_dash3_intercalate _ ','
          (Or.inr ⟨' ', by decide⟩) (by rw [dash3_chars]; decide)
          (by
            intro c1 hc1
            have hsep2 : (", ".toStr : Str) = [',', ' '] := by decide
            rw [hsep2] at hc1
            rw [dash3_chars]
            simp only [List.mem_cons, List.not_mem_nil, or_false] at hc1
            rcases hc1 with rfl | rfl <;> decide)
          (x :: xs) ?_ h2
        intro l hl
        exact not_infix_of_hasDash3_false (hL l (hls ▸ hl)).1.2
  have hpr : ¬ dash3 <:+: ("priority: ".toStr ++ c.priority) := by
    have : hasDash3 ("priority: ".toStr ++ c.priority) = false := by
      rw [hasDash3_append_no_dash (by decide)]
      exact hPd
    exact not_infix_of_hasDash3_false this
  have hcr : ¬ dash3 <:+: ("created: ".toStr ++ c.created) := by
    have : hasDash3 ("created: ".toStr ++ c.created) = false := by
      rw [hasDash3_append_no_dash (by decide)]
      exact hCd
    exact not_infix_of_hasDash3_false this
  cases c.rank with
  | none =>
    intro l hl
    simp only [List.append_nil, List.mem_cons, List.not_mem_nil, or_false] at hl
    rcases hl with rfl | rfl | rfl
    · exact hpr
    · exact hlab
    · exact hcr
  | some n =>
    intro l hl
    simp only [List.mem_append, List.mem_cons, List.not_mem_nil, or_false,
      List.mem_singleton] at hl
    rcases hl with (rfl | rfl | rfl) | rfl
    · exact hpr
    · exact hlab
    · exact hcr
    · refine not_infix_of_hasDash3_false ?_
      rw [hasDash3_append_no_dash (by decide)]
      exact hasDash3_intToStr n

theorem itemLine_ne_nil (i : ChecklistItem) : itemLine i ≠ [] := by
  unfold itemLine
  cases i.checked <;>
    exact fun hx => absurd (List.append_eq_nil.mp hx).1 (by decide)

theorem itemLine_eq (i : ChecklistItem) :
    itemLine i = (if i.checked then "- [x] ".toStr else "- [ ] ".toStr) ++ i.text := rfl

theorem bodyLines_noNl (c : Card) (h : WfCard c) : ∀ l ∈ bodyLines c, '\n' ∉ l := by
  obtain ⟨⟨hTne, hTh, hTl, hTn⟩, hP, hC, hL, hD, hK⟩ := h
  unfold bodyLines
  rw [if_neg hTne]
  intro l hl
  simp only [List.mem_append, List.mem_cons, List.not_mem_nil, or_false] at hl
  rcases hl with (rfl | hdesc) | hcheck
  · exact noNl_append (by decide) hTn
  · by_cases hd : c.description = []
    · simp [hd] at hdesc
    · rw [if_pos hd] at hdesc
      simp only [List.mem_append, List.mem_cons, List.not_mem_nil, or_false] at hdesc
      rcases hdesc with (rfl | rfl) | hmem
      · simp
      · decide
      · intro hnl
        exact mem_splitCh '\n' c.description l hmem hnl
  · by_cases hc : c.checklist = []
    · simp [hc] at hcheck
    · rw [if_pos hc] at hcheck
      simp only [List.mem_append, List.mem_cons, List.not_mem_nil, or_false] at hcheck
      rcases hcheck with (rfl | rfl) | hmem
      · simp
      · decide
      · obtain ⟨i, hi, rfl⟩ := List.mem_map.mp hmem
        rw [itemLine_eq]
        obtain ⟨hine, hinl, hil⟩ := hK i hi
        cases hck : i.checked
        · rw [if_neg (by simp)]
          exact noNl_append (by decide) hinl
        · rw [if_pos (by simp)]
          exact noNl_append (by decide) hinl

theorem bodyLines_head (c : Card) (hTne : c.title ≠ []) :
    headNotWs (joinNl (bodyLines c)) = true := by
  unfold bodyLines
  rw [if_neg hTne]
  have h1 : ("# ".toStr ++ c.title) ≠ [] := by
    intro hx
    exact hTne (List.append_eq_nil.mp hx).2
  have h2 : headNotWs ("# ".toStr ++ c.title) = true :=
    headNotWs_append_left (by decide) (by decide) _
  rw [List.cons_append, List.cons_append]
  exact headNotWs_joinNl_cons h1 h2 _

theorem bodyLines_last (c : Card) (h : WfCard c) :
    lastNotWs (joinNl (bodyLines c)) = true := by
  obtain ⟨⟨hTne, hTh, hTl, hTn⟩, hP, hC, hL, hD, hK⟩ := h
  unfold bodyLines
  rw [if_neg hTne]
  by_cases hc : c.checklist = []
  · rw [if_neg (not_not_intro hc), List.append_nil]
    by_cases hd : c.description = []
    · rw [if_neg (not_not_intro hd), List.append_nil, joinNl_singleton,
        lastNotWs_append hTne]
      exact hTl
    · rw [if_pos hd]
      rcases hD with hD0 | ⟨hDh, hDl, hDlines⟩
      · exact absurd hD0 hd
      · obtain ⟨dinit, dlast, hsplit, hdne, hdl⟩ := lastNotWs_last_split hDl hd
        rw [hsplit]
        have hshape :
            ["# ".toStr ++ c.title] ++ ([[], "## Description".toStr] ++ (dinit ++ [dlast])) =
            (["# ".toStr ++ c.title] ++ [[], "## Description".toStr] ++ dinit) ++ [dlast] := by
          simp
        rw [hshape]
        exact lastNotWs_joinNl_concat _ _ hdne hdl
  · rw [if_pos hc]
    rcases List.eq_nil_or_concat c.checklist with hnil | ⟨init, lastIt, hconcat⟩
    · exact absurd hnil hc
    · rw [List.concat_eq_append] at hconcat
      rw [hconcat, List.map_append]
      simp only [List.map_cons, List.map_nil]
      have hlast : lastNotWs (itemLine lastIt) = true := by
        obtain ⟨hine, hinl, hil⟩ := hK lastIt (by rw [hconcat]; simp)
        rw [itemLine_eq, lastNotWs_append hine]
        exact hil
      have hshape :
          ["# ".toStr ++ c.title] ++
            (if c.description ≠ [] then
              [[], "## Description".toStr] ++ splitCh '\n' c.description else []) ++
            ([[], "## Checklist".toStr] ++ (init.map itemLine ++ [itemLine lastIt])) =
          (["# ".toStr ++ c.title] ++
            (if c.description ≠ [] then
              [[], "## Description".toStr] ++ splitCh '\n' c.description else []) ++
            ([[], "## Checklist".toStr] ++ init.map itemLine)) ++ [itemLine lastIt] := by
        simp
      rw [hshape]
      exact lastNotWs_joinNl_concat _ _ (itemLine_ne_nil lastIt) hlast

theorem joinNl_bodyLines0 (c : Card) : joinNl (bodyLines0 c) = joinNl (bodyLines c) := by
  unfold bodyLines0 bodyLines
  by_cases hd : c.description = []
  · simp [hd]
  · by_cases hc : c.checklist = [] <;>
      · simp [hd, hc, joinNl_cons, joinNl_append, joinNl_singleton, splitCh_ne_nil,
          joinCh_splitCh]
        exact (joinCh_splitCh '\n' c.description).symm

theorem parseFrontmatter_block (F B : Str) (hFh : headNotWs F = true)
    (hFl : lastNotWs F = true) (hFd : ¬ dash3 <:+: F)
    (hBh : headNotWs B = true) (hBl : lastNotWs B = true) :
    parseFrontmatter
      ((dash3 ++ '\n' :: (F ++ ['\n'])) ++ (dash3 ++ '\n' :: '\n' :: (B ++ ['\n']))) =
      { frontmatter := (splitCh '\n' F).foldl fmSetLine {}, content := B } := by
  have hassoc :
      (dash3 ++ '\n' :: (F ++ ['\n'])) ++ (dash3 ++ '\n' :: '\n' :: (B ++ ['\n'])) =
      dash3 ++ (('\n' :: (F ++ ['\n'])) ++ (dash3 ++ ('\n' :: '\n' :: (B ++ ['\n'])))) := by
    simp
  have hg : ¬ dash3 <:+: (('\n' :: (F ++ ['\n'])) ++ "--".toStr) := by
    intro hi
    have hsh : ('\n' :: (F ++ ['\n'])) ++ "--".toStr =
        ([] : Str) ++ '\n' :: (F ++ '\n' :: "--".toStr) := by simp
    rw [hsh] at hi
    have hnl : '\n' ∉ dash3 := by rw [dash3_chars]; decide
    rcases infix_append_cons_split hnl hi with h1 | h2
    · rw [List.infix_nil, dash3_chars] at h1
      cases h1
    · rcases infix_append_cons_split hnl h2 with h3 | h4
      · exact hFd h3
      · have hlen := h4.sublist.length_le
        rw [dash3_chars] at hlen
        revert hlen
        decide
  have hpre : ("---".toStr).isPrefixOf
      ((dash3 ++ '\n' :: (F ++ ['\n'])) ++ (dash3 ++ '\n' :: '\n' :: (B ++ ['\n']))) = true := by
    rw [hassoc]
    exact isPrefixOf_self_append _ _
  have hd3len : (3 : Nat) = dash3.length := by rw [dash3_chars]; rfl
  have hidx : jsIndexOf
      ((dash3 ++ '\n' :: (F ++ ['\n'])) ++ (dash3 ++ '\n' :: '\n' :: (B ++ ['\n'])))
      ("---".toStr) 3 = some (F.length + 5) := by
    unfold jsIndexOf
    rw [hassoc, hd3len, List.drop_left]
    have hfs : findSub ("---".toStr)
        (('\n' :: (F ++ ['\n'])) ++ (dash3 ++ ('\n' :: '\n' :: (B ++ ['\n'])))) =
        some (('\n' :: (F ++ ['\n'])).length) := findSub_dash3 _ _ hg
    rw [hfs]
    simp only [Option.map_some', List.length_cons, List.length_append,
      List.length_singleton]
    rw [dash3_chars]
    congr 1
  unfold parseFrontmatter
  rw [hpre, if_pos rfl, hidx]
  have htake :
      ((dash3 ++ '\n' :: (F ++ ['\n'])) ++ (dash3 ++ '\n' :: '\n' :: (B ++ ['\n']))).take
        (F.length + 5) = dash3 ++ '\n' :: (F ++ ['\n']) := by
    have hlen : F.length + 5 = (dash3 ++ '\n' :: (F ++ ['\n'])).length := by
      rw [dash3_chars]
      simp
    rw [hlen, List.take_left]
  have hyaml : jsTrim (((dash3 ++ '\n' :: (F ++ ['\n'])) ++
      (dash3 ++ '\n' :: '\n' :: (B ++ ['\n']))).take (F.length + 5) |>.drop 3) = F := by
    rw [htake, hd3len, List.drop_left]
    rw [jsTrim_cons_ws (by decide), jsTrim_append_ws _ (by decide),
      jsTrim_of_wf hFh hFl]
  have hdrop2 : ((dash3 ++ '\n' :: (F ++ ['\n'])) ++
      (dash3 ++ '\n' :: '\n' :: (B ++ ['\n']))).drop (F.length + 5 + 3) =
      '\n' :: '\n' :: (B ++ ['\n']) := by
    rw [List.drop_append_eq_append_drop]
    have hplen : (dash3 ++ '\n' :: (F ++ ['\n'])).length = F.length + 5 := by
      rw [dash3_chars]
      simp
    rw [List.drop_eq_nil_of_le (by omega), hplen]
    have h3 : F.length + 5 + 3 - (F.length + 5) = 3 := by omega
    rw [h3, List.nil_append, hd3len, List.drop_left]
  have hcontent : jsTrim (((dash3 ++ '\n' :: (F ++ ['\n'])) ++
      (dash3 ++ '\n' :: '\n' :: (B ++ ['\n']))).drop (F.length + 5 + 3)) = B := by
    rw [hdrop2, jsTrim_cons_ws (by decide), jsTrim_cons_ws (by decide),
      jsTrim_append_ws _ (by decide), jsTrim_of_wf hBh hBl]
  simp only [hyaml, hcontent]

theorem parseFrontmatter_serialize (c : Card) (now : Str) (h : WfCard c) :
    parseFrontmatter (serializeCard c now) =
      { frontmatter := { priority := some c.priority, labels := some c.labels, created := some c.created, rank := c.rank, extra := [] }
        content := joinNl (bodyLines c) } := by
  rw [serializeCard_structure, joinNl_bodyLines0]
  rw [parseFrontmatter_block (joinNl (fmLines c now)) (joinNl (bodyLines c))
    (fmLines_head c now h.2.1.1.1) (fmLines_last c now h) (fmLines_noDash3 c now h)
    (bodyLines_head c h.1.1) (bodyLines_last c h)]
  have hsplit : splitCh '\n' (joinNl (fmLines c now)) = fmLines c now := by
    unfold joinNl
    exact splitCh_intercalate '\n' (fmLines c now) (fmLines_ne_nil c now)
      (fmLines_noNl c now h)
  rw [hsplit, foldl_fmLines c now h]

theorem bodyStep_title (acc : BodyAcc) (T : Str) (hTne : T ≠ [])
    (hTh : headNotWs T = true) (hTl : lastNotWs T = true)
    (hacc : acc.title = []) :
    bodyStep acc ("# ".toStr ++ T) = { acc with title := T } := by
  have hline : jsTrim ("# ".toStr ++ T) = "# ".toStr ++ T :=
    jsTrim_of_wf (headNotWs_append_left (by decide) (by decide) _)
      (by rw [lastNotWs_append hTne]; exact hTl)
  have hdrop : ("# ".toStr ++ T).drop 2 = T := by
    rw [show (2 : Nat) = ("# ".toStr).length from rfl, List.drop_left]
  simp only [bodyStep, hline]
  have hcond : (("# ".toStr).isPrefixOf ("# ".toStr ++ T) &&
      decide (acc.title = [])) = true := by
    rw [isPrefixOf_self_append, hacc]
    simp
  rw [hcond, if_pos rfl, hdrop, jsTrim_of_wf hTh hTl]

theorem bodyStep_blank_header (acc : BodyAcc) (hsec : acc.sec = .header) :
    bodyStep acc [] = acc := by
  have h1 : jsTrim ([] : Str) = [] := by decide
  have h2 : ("# ".toStr).isPrefixOf ([] : Str) = false := by decide
  have h3 : ([] : Str) ≠ "## Description".toStr := by decide
  have h4 : ([] : Str) ≠ "## Checklist".toStr := by decide
  have h5 : ("## ".toStr).isPrefixOf ([] : Str) = false := by decide
  simp [bodyStep, h1, h2, h3, h4, h5, hsec]

theorem bodyStep_descHeader (acc : BodyAcc) :
    bodyStep acc ("## Description".toStr) = { acc with sec := .descr } := by
  have h1 : jsTrim ("## Description".toStr) = "## Description".toStr := by decide
  have h2 : ("# ".toStr).isPrefixOf ("## Description".toStr) = false := by decide
  simp [bodyStep, h1, h2]

theorem bodyStep_checkHeader (acc : BodyAcc) :
    bodyStep acc ("## Checklist".toStr) = { acc with sec := .checklist } := by
  have h1 : jsTrim ("## Checklist".toStr) = "## Checklist".toStr := by decide
  have h2 : ("# ".toStr).isPrefixOf ("## Checklist".toStr) = false := by decide
  have h3 : ("## Checklist".toStr : Str) ≠ "## Description".toStr := by decide
  simp [bodyStep, h1, h2, h3]

theorem bodyStep_desc_append (acc : BodyAcc) (line : Str) (hsec : acc.sec = .descr)
    (htitle : acc.title ≠ []) (hline : ¬ (("## ".toStr) <+: jsTrim line)) :
    bodyStep acc line = { acc with descLines := acc.descLines ++ [line] } := by
  have hc1 : decide (acc.title = []) = false := by simp [htitle]
  have hne1 : jsTrim line ≠ "## Description".toStr := by
    intro he
    exact hline (he ▸ (by decide : ("## ".toStr) <+: "## Description".toStr))
  have hne2 : jsTrim line ≠ "## Checklist".toStr := by
    intro he
    exact hline (he ▸ (by decide : ("## ".toStr) <+: "## Checklist".toStr))
  have hne3 : ("## ".toStr).isPrefixOf (jsTrim line) = false := by
    rw [Bool.eq_false_iff]
    intro hb
    exact hline (List.isPrefixOf_iff_prefix.mp hb)
  simp [bodyStep, hc1, hne1, hne2, hne3, hsec]

theorem itemLine_cons (i : ChecklistItem) :
    itemLine i =
      '-' :: ' ' :: '[' :: (if i.checked then 'x' else ' ') :: ']' :: ' ' :: i.text := by
  cases hck : i.checked
  · have h : ("- [ ] ".toStr : Str) = ['-', ' ', '[', ' ', ']', ' '] := by decide
    simp only [itemLine, hck, Bool.false_eq_true, if_false]
    rw [h]
    rfl
  · have h : ("- [x] ".toStr : Str) = ['-', ' ', '[', 'x', ']', ' '] := by decide
    simp only [itemLine, hck, if_true]
    rw [h]
    rfl

theorem head_ne {a b : Char} {x y : Str} (hab : a ≠ b) : a :: x ≠ b :: y := by
  intro he
  injection he with h1 _
  exact hab h1

theorem isPrefixOf_false_of_head {a b : Char} (hab : ¬ (a == b) = true)
    (x y : Str) : (a :: x).isPrefixOf (b :: y) = false := by
  simp only [List.isPrefixOf]
  rw [Bool.eq_false_iff]
  intro hc
  exact hab (Bool.and_elim_left hc)

theorem bodyStep_item (acc : BodyAcc) (i : ChecklistItem) (hsec : acc.sec = .checklist)
    (htitle : acc.title ≠ []) (hwf : wfItem i) :
    bodyStep acc (itemLine i) = { acc with checklist := acc.checklist ++ [i] } := by
  obtain ⟨tx, ck⟩ := i
  obtain ⟨hine, hinl, hil⟩ := hwf
  simp only at hine hinl hil
  have hcons : itemLine ⟨tx, ck⟩ =
      '-' :: ' ' :: '[' :: (if ck then 'x' else ' ') :: ']' :: ' ' :: tx :=
    itemLine_cons ⟨tx, ck⟩
  have htrim : jsTrim (itemLine ⟨tx, ck⟩) = itemLine ⟨tx, ck⟩ := by
    refine jsTrim_of_wf ?_ ?_
    · rw [hcons]
      simp [headNotWs, isWs]
    · rw [itemLine_eq, lastNotWs_append hine]
      exact hil
  have h2 : ("# ".toStr).isPrefixOf (itemLine ⟨tx, ck⟩) = false := by
    rw [hcons, show ("# ".toStr : Str) = '#' :: [' '] from by decide]
    exact isPrefixOf_false_of_head (by decide) _ _
  have hne1 : itemLine ⟨tx, ck⟩ ≠ "## Description".toStr := by
    rw [hcons, show ("## Description".toStr : Str) = '#' :: "# Description".toStr from by decide]
    exact head_ne (by decide)
  have hne2 : itemLine ⟨tx, ck⟩ ≠ "## Checklist".toStr := by
    rw [hcons, show ("## Checklist".toStr : Str) = '#' :: "# Checklist".toStr from by decide]
    exact head_ne (by decide)
  have h5 : ("## ".toStr).isPrefixOf (itemLine ⟨tx, ck⟩) = false := by
    rw [hcons, show ("## ".toStr : Str) = '#' :: "# ".toStr from by decide]
    exact isPrefixOf_false_of_head (by decide) _ _
  have hct : tx.contains '\n' = false := by simpa using hinl
  have hcheck : checkItem (itemLine ⟨tx, ck⟩) = some ⟨tx, ck⟩ := by
    rw [hcons]
    cases ck
    · simp only [Bool.false_eq_true, if_false]
      simp [checkItem, hine, hct, hinl]
    · simp only [if_true]
      simp [checkItem, hine, hct, hinl]
  have hc1 : decide (acc.title = []) = false := by simp [htitle]
  have hsecd : acc.sec ≠ Sec.descr := by rw [hsec]; decide
  simp [bodyStep, htrim, h2, hne1, hne2, h5, hc1, hsecd, hsec, hcheck]

theorem foldl_desc (dls : List Str) : ∀ (acc : BodyAcc), acc.sec = .descr →
    acc.title ≠ [] → (∀ l ∈ dls, ¬ (("## ".toStr) <+: jsTrim l)) →
    dls.foldl bodyStep acc = { acc with descLines := acc.descLines ++ dls } := by
  induction dls with
  | nil => intro acc _ _ _; simp
  | cons d ds ih =>
    intro acc hsec htitle h
    rw [List.foldl_cons, bodyStep_desc_append acc d hsec htitle (h d (by simp))]
    rw [ih ({ acc with descLines := acc.descLines ++ [d] }) hsec htitle
      (fun l hl => h l (List.mem_cons_of_mem d hl))]
    simp

theorem foldl_items (its : List ChecklistItem) : ∀ (acc : BodyAcc),
    acc.sec = .checklist → acc.title ≠ [] → (∀ i ∈ its, wfItem i) →
    (its.map itemLine).foldl bodyStep acc =
      { acc with checklist := acc.checklist ++ its } := by
  induction its with
  | nil => intro acc _ _ _; simp
  | cons i is ih =>
    intro acc hsec htitle h
    rw [List.map_cons, List.foldl_cons,
      bodyStep_item acc i hsec htitle (h i (by simp))]
    rw [ih ({ acc with checklist := acc.checklist ++ [i] }) hsec htitle
      (fun x hx => h x (List.mem_cons_of_mem i hx))]
    simp

theorem bodyLines_ne_nil (c : Card) : bodyLines c ≠ [] := by
  unfold bodyLines
  simp

theorem blank_not_section : ¬ (("## ".toStr) <+: jsTrim ([] : Str)) := by
  rw [show jsTrim ([] : Str) = [] from by decide]
  intro hp
  have := hp.length_le
  simp at this
  exact absurd this (by decide)

theorem parseCard_serializeCard (c : Card) (now fn col : Str) (h : WfCard c) :
    parseCard (serializeCard c now) fn col =
      { c with id := replaceFirst fn (".md".toStr) [], column := col, updated := none } := by
  have hw := h
  obtain ⟨⟨hTne, hTh, hTl, hTn⟩, ⟨⟨hPne, hPh, hPl, hPn⟩, hPd⟩,
    ⟨⟨hCne, hCh, hCl, hCn⟩, hCd⟩, hL, hD, hK⟩ := hw
  unfold parseCard
  rw [parseFrontmatter_serialize c now h]
  have hsplit : splitCh '\n' (joinNl (bodyLines c)) = bodyLines c := by
    unfold joinNl
    exact splitCh_intercalate '\n' (bodyLines c) (bodyLines_ne_nil c)
      (bodyLines_noNl c h)
  dsimp only
  rw [hsplit]
  have s1 : bodyStep {} ("# ".toStr ++ c.title) = { title := c.title } :=
    bodyStep_title {} c.title hTne hTh hTl rfl
  unfold bodyLines
  rw [if_neg hTne]
  by_cases hd : c.description = []
  · rw [if_neg (not_not_intro hd)]
    by_cases hc : c.checklist = []
    · rw [if_neg (not_not_intro hc)]
      simp only [List.append_nil, List.foldl_cons, List.foldl_nil]
      rw [s1]
      simp only [Option.getD_some]
      rw [if_neg hPne]
      simp [hd, hc, joinNl, List.intercalate, jsTrim, jsTrimStart, jsTrimEnd]
    · rw [if_pos hc]
      simp only [List.nil_append, List.foldl_append, List.foldl_cons, List.foldl_nil]
      rw [s1]
      have s2 : bodyStep { title := c.title } ([] : Str) = { title := c.title } :=
        bodyStep_blank_header _ rfl
      rw [s2, bodyStep_checkHeader]
      have s7 := foldl_items c.checklist
        ({ title := c.title, sec := .checklist } : BodyAcc) rfl hTne hK
      simp only [List.nil_append] at s7
      rw [s7]
      simp only [Option.getD_some]
      rw [if_neg hPne]
      simp [hd, joinNl, List.intercalate, jsTrim, jsTrimStart, jsTrimEnd]
  · rcases hD with hD0 | ⟨hDh, hDl, hDlines⟩
    · exact absurd hD0 hd
    rw [if_pos hd]
    have s2 : bodyStep { title := c.title } ([] : Str) = { title := c.title } :=
      bodyStep_blank_header _ rfl
    have s4 := foldl_desc (splitCh '\n' c.description)
      ({ title := c.title, sec := .descr } : BodyAcc) rfl hTne hDlines
    simp only [List.nil_append] at s4
    have hdesc_eq : jsTrim (joinNl (splitCh '\n' c.description)) = c.description := by
      rw [show joinNl (splitCh '\n' c.description) = c.description from
        joinCh_splitCh '\n' c.description]
      exact jsTrim_of_wf hDh hDl
    by_cases hc : c.checklist = []
    · rw [if_neg (not_not_intro hc)]
      simp only [List.append_nil, List.foldl_append, List.foldl_cons, List.foldl_nil]
      rw [s1, s2, bodyStep_descHeader, s4]
      simp only [Option.getD_some]
      rw [if_neg hPne]
      simp [hc, hdesc_eq]
    · rw [if_pos hc]
      simp only [List.foldl_append, List.foldl_cons, List.foldl_nil]
      rw [s1, s2, bodyStep_descHeader, s4]
      have s5 : bodyStep
          ({ title := c.title, sec := .descr,
             descLines := splitCh '\n' c.description } : BodyAcc) ([] : Str) =
          { title := c.title, sec := .descr,
            descLines := splitCh '\n' c.description ++ [[]] } :=
        bodyStep_desc_append _ _ rfl hTne blank_not_section
      rw [s5, bodyStep_checkHeader]
      have s7 := foldl_items c.checklist
        ({ title := c.title, sec := .checklist,
           descLines := splitCh '\n' c.description ++ [[]] } : BodyAcc) rfl hTne hK
      simp only [List.nil_append] at s7
      rw [s7]
      simp only [Option.getD_some]
      rw [if_neg hPne]
      have hjoin : jsTrim (joinNl (splitCh '\n' c.description ++ [[]])) =
          c.description := by
        rw [joinNl_append (splitCh_ne_nil '\n' c.description) (by simp),
          joinNl_singleton]
        rw [show joinNl (splitCh '\n' c.description) = c.description from
          joinCh_splitCh '\n' c.description]
        have : c.description ++ '\n' :: [] = c.description ++ ['\n'] := rfl
        rw [this, jsTrim_append_ws _ (by decide)]
        exact jsTrim_of_wf hDh hDl
      simp [hjoin]

/-- C1 counterexample: the claim as stated fails for the `updated`
field.  `serializeCard` never writes an `updated:` line and
`parseCard` never reads one, so a card whose `updated` is set does not
get it back through the round trip. -/
theorem c1_updated_not_roundtripped :
    (parseCard
      (serializeCard
        { id := "t".toStr, title := "Task".toStr, priority := "high".toStr,
          labels := [], created := "2024-01-15".toStr,
          updated := some ("2024-01-16T14:45:00.000Z".toStr),
          description := [], checklist := [], column := "todo".toStr,
          rank := none }
        ("2024-02-02T10:00:00.000Z".toStr))
      ("t.md".toStr) ("todo".toStr)).updated ≠
    some ("2024-01-16T14:45:00.000Z".toStr) := by decide

/-- C1 (amended): for every card whose representable fields are
well-formed for the file format (title, priority and created nonempty,
trim-stable and newline-free; frontmatter values free of `---`; labels
additionally comma-free; description trim-stable with no line reading
as a section header; checklist texts nonempty, newline-free and free
of trailing whitespace), `parseCard (serializeCard c)` reproduces
title, priority, labels, created, rank, description and checklist,
while `id` and `column` come from the filename and directory and
`updated` — which this serializer does not write — comes back unset. -/
theorem c1_roundtrip (c : Card) (now fn col : Str) (h : WfCard c) :
    parseCard (serializeCard c now) fn col =
      { c with id := replaceFirst fn (".md".toStr) [], column := col,
               updated := none } :=
  parseCard_serializeCard c now fn col h

/-- C1 witness: the round trip evaluated at one concrete well-formed
card. -/
theorem c1_roundtrip_witness :
    parseCard
      (serializeCard
        { id := "x".toStr, title := "Fix bug".toStr, priority := "high".toStr,
          labels := ["bug".toStr, "api-v2".toStr],
          created := "2024-01-15".toStr, updated := some ("w".toStr),
          description := ("First line\n\nsecond part".toStr),
          checklist := [⟨"step one".toStr, true⟩, ⟨"later".toStr, false⟩],
          column := "elsewhere".toStr, rank := some 2 }
        ("2024-02-02T10:00:00.000Z".toStr))
      ("sample.md".toStr) ("todo".toStr) =
      { id := "sample".toStr, title := "Fix bug".toStr,
        priority := "high".toStr,
        labels := ["bug".toStr, "api-v2".toStr],
        created := "2024-01-15".toStr, updated := none,
        description := ("First line\n\nsecond part".toStr),
        checklist := [⟨"step one".toStr, true⟩, ⟨"later".toStr, false⟩],
        column := "todo".toStr, rank := some 2 } :=
  c1_roundtrip
    { id := "x".toStr, title := "Fix bug".toStr, priority := "high".toStr,
      labels := ["bug".toStr, "api-v2".toStr],
      created := "2024-01-15".toStr, updated := some ("w".toStr),
      description := ("First line\n\nsecond part".toStr),
      checklist := [⟨"step one".toStr, true⟩, ⟨"later".toStr, false⟩],
      column := "elsewhere".toStr, rank := some 2 }
    ("2024-02-02T10:00:00.000Z".toStr) ("sample.md".toStr) ("todo".toStr)
    (by simp only [WfCard, wfVal, wfFmVal, wfLabel, wfDesc, wfItem]; decide)

/-- C8 counterexample: the body walk trims each line before testing
for the title marker, so a line that does not match `^# ` on its raw
form (here indented as ` # Indented`) still sets the title; the claim
that only lines matching `^# ` set the title fails. -/
theorem c8_indented_title_captured :
    (parseCard ("---\npriority: high\n---\nx\n # Indented".toStr)
      ("t.md".toStr) ("todo".toStr)).title = "Indented".toStr ∧
    (∀ l ∈ splitCh '\n' ("---\npriority: high\n---\nx\n # Indented".toStr),
      ¬ (("# ".toStr) <+: l)) := by
  constructor
  · decide
  · decide

/-- C8 (amended): while the walk is in the description state, every
line that is not read as a section header is appended verbatim to the
description buffer (blank lines included; a title capture cannot occur
because the title is already set once the description section has been
entered); the title is written exactly by the lines whose trimmed form
starts with a hash-space marker while no title has been captured, and
by no other line; and `parseCard` produces the description by joining
the buffer with newlines and trimming once at the end. -/
theorem c8_description_walk :
    (∀ (acc : BodyAcc) (line : Str), acc.sec = Sec.descr → acc.title ≠ [] →
      ¬ sectionHeaderLine line →
      (bodyStep acc line).descLines = acc.descLines ++ [line]) ∧
    (∀ (acc : BodyAcc) (line : Str), ¬ titleCaptureLine acc line →
      (bodyStep acc line).title = acc.title) ∧
    (∀ (acc : BodyAcc) (line : Str), titleCaptureLine acc line →
      (bodyStep acc line).title = jsTrim ((jsTrim line).drop 2)) ∧
    (∀ (md fn col : Str), (parseCard md fn col).description =
      jsTrim (joinNl
        (((splitCh '\n' (parseFrontmatter md).content).foldl bodyStep {}).descLines))) := by
  refine ⟨?_, ?_, ?_, ?_⟩
  · intro acc line hsec htitle hline
    rw [bodyStep_desc_append acc line hsec htitle hline]
  · intro acc line hn
    simp only [bodyStep]
    by_cases h1 : (("# ".toStr).isPrefixOf (jsTrim line) &&
        decide (acc.title = [])) = true
    · exfalso
      rw [Bool.and_eq_true, decide_eq_true_eq] at h1
      exact hn ⟨List.isPrefixOf_iff_prefix.mp h1.1, h1.2⟩
    · rw [if_neg h1]
      split_ifs <;> try rfl
      cases checkItem (jsTrim line) <;> rfl
  · intro acc line hcap
    simp only [bodyStep]
    rw [if_pos]
    rw [Bool.and_eq_true, decide_eq_true_eq]
    exact ⟨List.isPrefixOf_iff_prefix.mpr hcap.1, hcap.2⟩
  · intro md fn col
    rfl

/-- C8 witness: a blank line arriving in the description state is
appended verbatim. -/
theorem c8_description_walk_witness :
    (bodyStep
      { title := "T".toStr, sec := Sec.descr, descLines := ["a".toStr],
        checklist := [] } ([] : Str)).descLines = ["a".toStr, []] := by
  have h := c8_description_walk.1
    { title := "T".toStr, sec := Sec.descr, descLines := ["a".toStr],
      checklist := [] } ([] : Str) rfl (by decide)
    (by simp only [sectionHeaderLine]; decide)
  simpa using h

/-- C3 counterexample: a successful cross-column move clears the rank
but does not set an updated timestamp — the moved card reloads with
`updated = none`. -/
theorem c3_updated_not_set :
    (moveCard
      { columns := ["todo".toStr, "doing".toStr]
        files := [⟨"todo".toStr, "a.md".toStr,
          "---\npriority: medium\ncreated: 2024-01-15\nrank: 2\n---\n# A".toStr⟩] }
      ("a".toStr) ("doing".toStr) ("2024-02-01T10:00:00.000Z".toStr)).2 =
        Except.ok () ∧
    ((findCard (loadBoard (moveCard
      { columns := ["todo".toStr, "doing".toStr]
        files := [⟨"todo".toStr, "a.md".toStr,
          "---\npriority: medium\ncreated: 2024-01-15\nrank: 2\n---\n# A".toStr⟩] }
      ("a".toStr) ("doing".toStr) ("2024-02-01T10:00:00.000Z".toStr)).1).cards
      ("a".toStr)).map (fun c => (c.column, c.rank, c.updated))) =
        some ("doing".toStr, none, none) :=
  ⟨rfl, rfl⟩

/-- C3 (amended): moving a card to its current column fails with
`AlreadyInColumn` and leaves the state unchanged; a cross-column move
writes the card with its rank cleared to the new column and removes
the old file, but never sets an updated timestamp — the serialized
file stores no updated field, so the moved card reloads with
`updated = none` (and with the cleared rank). -/
theorem c3_move_semantics :
    (∀ (fs : FsState) (cardId toColumn now : Str) (card : Card),
      validName cardId = true → validName toColumn = true →
      (loadBoard fs).columns.contains toColumn = true →
      findCard (loadBoard fs).cards cardId = some card →
      card.column = toColumn →
      moveCard fs cardId toColumn now = (fs, Except.error KErr.alreadyInColumn)) ∧
    (∀ (fs : FsState) (cardId toColumn now : Str) (card : Card),
      validName cardId = true → validName toColumn = true →
      (loadBoard fs).columns.contains toColumn = true →
      findCard (loadBoard fs).cards cardId = some card →
      card.column ≠ toColumn →
      hasFile fs toColumn (cardId ++ ".md".toStr) = false →
      moveCard fs cardId toColumn now =
        (unlinkFile
          { fs with files := fs.files ++
              [⟨toColumn, cardId ++ ".md".toStr,
                serializeCard { card with rank := none } now⟩] }
          card.column (cardId ++ ".md".toStr), Except.ok ())) ∧
    (∀ (c : Card) (now fn col : Str), WfCard c →
      (parseCard (serializeCard c now) fn col).updated = none ∧
      (parseCard (serializeCard c now) fn col).rank = c.rank) := by
  refine ⟨?_, ?_, ?_⟩
  · intro fs cardId toColumn now card hv1 hv2 hcol hfind heq
    simp only [moveCard, hv1, hv2, hcol, Bool.not_true, Bool.false_eq_true,
      if_false, hfind]
    rw [if_pos heq]
  · intro fs cardId toColumn now card hv1 hv2 hcol hfind hne hnof
    simp only [moveCard, hv1, hv2, hcol, Bool.not_true, Bool.false_eq_true,
      if_false, hfind]
    rw [if_neg hne]
    simp only [writeExclusive, hnof, Bool.false_eq_true, if_false]
  · intro c now fn col h
    rw [parseCard_serializeCard c now fn col h]
    exact ⟨rfl, rfl⟩

/-- C3 witness: a same-column move on a concrete one-card board fails
with `AlreadyInColumn` and returns the state unchanged. -/
theorem c3_move_semantics_witness :
    moveCard
      { columns := ["todo".toStr]
        files := [⟨"todo".toStr, "a.md".toStr,
          "---\npriority: medium\ncreated: 2024-01-15\n---\n# A".toStr⟩] }
      ("a".toStr) ("todo".toStr) ("2024-02-01T10:00:00.000Z".toStr) =
    ({ columns := ["todo".toStr]
       files := [⟨"todo".toStr, "a.md".toStr,
         "---\npriority: medium\ncreated: 2024-01-15\n---\n# A".toStr⟩] },
     Except.error KErr.alreadyInColumn) :=
  c3_move_semantics.1
    { columns := ["todo".toStr]
      files := [⟨"todo".toStr, "a.md".toStr,
        "---\npriority: medium\ncreated: 2024-01-15\n---\n# A".toStr⟩] }
    ("a".toStr) ("todo".toStr) ("2024-02-01T10:00:00.000Z".toStr)
    { id := "a".toStr, title := "A".toStr, priority := "medium".toStr,
      labels := [], created := "2024-01-15".toStr, updated := none,
      description := [], checklist := [], column := "todo".toStr, rank := none }
    (by decide) (by decide) (by decide) (by decide) (by decide)

theorem intercalate_splitCh (c : Char) (s : Str) :
    List.intercalate [c] (splitCh c s) = s := by
  induction s with
  | nil =>
    show List.intercalate [c] [[]] = []
    rw [intercalate_cons, if_pos rfl]
  | cons a rest ih =>
    obtain ⟨hd, tl, h⟩ := splitCh_exists_cons c rest
    rw [h] at ih
    rw [splitCh_cons_eq c a rest h]
    by_cases hac : a = c
    · rw [if_pos hac, intercalate_cons, if_neg (by simp)]
      subst hac
      simp [ih]
    · rw [if_neg hac, intercalate_cons]
      by_cases htl : tl = []
      · subst htl
        rw [if_pos rfl]
        rw [intercalate_cons, if_pos rfl] at ih
        rw [ih]
      · rw [if_neg htl]
        rw [intercalate_cons, if_neg htl] at ih
        simp only [List.cons_append]
        rw [ih]

theorem digitsRun_parts {n : Nat} {s : Str} (h : digitsRun n s = true) :
    s.length = n ∧ ∀ c ∈ s, isDigitCh c = true := by
  unfold digitsRun at h
  rw [Bool.and_eq_true, decide_eq_true_eq] at h
  exact ⟨h.1, fun c hc => List.all_eq_true.mp h.2 c hc⟩

theorem lastNotWs_digits {s : Str} (hne : s ≠ [])
    (h : ∀ c ∈ s, isDigitCh c = true) : lastNotWs s = true := by
  rcases List.eq_nil_or_concat s with rfl | ⟨init, lastc, hs⟩
  · exact absurd rfl hne
  · rw [List.concat_eq_append] at hs
    subst hs
    rw [lastNotWs_snoc]
    have hdig := h lastc (by simp)
    simp [not_ws_of_digit hdig]

theorem isPrefixOf_dash2_digit_false {c : Char} (hc : isDigitCh c = true)
    (t : Str) : (("--".toStr)).isPrefixOf (c :: t) = false := by
  have hne : ('-' == c) = false :=
    beq_eq_false_iff_ne.mpr (Ne.symm (not_dash_of_digit hc))
  show (['-', '-'] : Str).isPrefixOf (c :: t) = false
  simp [List.isPrefixOf, hne]

theorem wfFmVal_of_dateOnly {s : Str} (h : isDateOnly s = true) : wfFmVal s := by
  unfold isDateOnly at h
  split at h
  · next y m d heq =>
    rw [Bool.and_eq_true, Bool.and_eq_true] at h
    obtain ⟨⟨hy, hm⟩, hd⟩ := h
    obtain ⟨hylen, hydig⟩ := digitsRun_parts hy
    obtain ⟨hmlen, hmdig⟩ := digitsRun_parts hm
    obtain ⟨hdlen, hddig⟩ := digitsRun_parts hd
    have hrec : s = y ++ '-' :: (m ++ '-' :: d) := by
      have hi := intercalate_splitCh '-' s
      rw [heq] at hi
      rw [← hi]
      rw [intercalate_cons, if_neg (by simp), intercalate_cons,
        if_neg (by simp), intercalate_cons, if_pos rfl]
      simp
    have hyne : y ≠ [] := by intro hx; rw [hx] at hylen; simp at hylen
    have hmne : m ≠ [] := by intro hx; rw [hx] at hmlen; simp at hmlen
    have hdne : d ≠ [] := by intro hx; rw [hx] at hdlen; simp at hdlen
    refine ⟨⟨?_, ?_, ?_, ?_⟩, ?_⟩
    · rw [hrec]; simp
    · cases y with
      | nil => exact absurd rfl hyne
      | cons yc yt =>
        rw [hrec]
        exact headNotWs_cons_append (not_ws_of_digit (hydig yc (by simp))) _ _
    · have hassoc : s = (y ++ '-' :: m ++ ['-']) ++ d := by rw [hrec]; simp
      rw [hassoc, lastNotWs_append hdne]
      exact lastNotWs_digits hdne hddig
    · rw [hrec]
      intro hmem
      simp only [List.mem_append, List.mem_cons] at hmem
      rcases hmem with hy2 | h1 | hm2 | h2 | hd2
      · exact absurd (hydig _ hy2) (by decide)
      · exact absurd h1 (by decide)
      · exact absurd (hmdig _ hm2) (by decide)
      · exact absurd h2 (by decide)
      · exact absurd (hddig _ hd2) (by decide)
    · have hynd : '-' ∉ y := fun hx => (not_dash_of_digit (hydig _ hx)) rfl
      have hmnd : '-' ∉ m := fun hx => (not_dash_of_digit (hmdig _ hx)) rfl
      rw [hrec, hasDash3_append_no_dash hynd]
      rw [hasDash3]
      cases m with
      | nil => exact absurd rfl hmne
      | cons mc mt =>
        have hpr1 : (("--".toStr)).isPrefixOf ((mc :: mt) ++ '-' :: d) = false := by
          rw [List.cons_append]
          exact isPrefixOf_dash2_digit_false (hmdig mc (by simp)) _
        rw [hpr1, Bool.and_false, Bool.false_or]
        rw [hasDash3_append_no_dash hmnd]
        rw [hasDash3]
        cases d with
        | nil => exact absurd rfl hdne
        | cons dc dt =>
          have hpr2 : (("--".toStr)).isPrefixOf (dc :: dt) = false :=
            isPrefixOf_dash2_digit_false (hddig dc (by simp)) _
          rw [hpr2, Bool.and_false, Bool.false_or]
          exact hasDash3_of_digits hddig
  · exact absurd h (by simp)

/-- C4 counterexample: the card created by `add("todo", "Build login
page")` carries a date-only `created` value, which does not match the
full ISO-8601 timestamp shape (it does match the date shape). -/
theorem c4_created_not_full_iso :
    ((findCard (loadBoard (addCard
        { columns := ["todo".toStr], files := [] }
        ("todo".toStr) ("Build login page".toStr) ("medium".toStr)
        ("2024-01-15T10:30:00.000Z".toStr)).1).cards
      ("build-login-page".toStr)).map
      (fun c => (c.created, isFullIso c.created, isDateOnly c.created))) =
    some ("2024-01-15".toStr, false, true) := rfl

/-- C4 (amended): on a board whose columns include `todo` and with no
file at `todo/build-login-page.md`, `add("todo", "Build login page")`
with a full-ISO clock value succeeds with a card whose id is
`build-login-page` and whose priority is `medium`, writes exactly the
file `todo/build-login-page.md`, and stores as `created` only the
DATE PART of the timestamp (shape `\d\x7b4\x7d-\d\x7b2\x7d-\d\x7b2\x7d`,
not the full ISO-8601 shape the claim states); the written file parses
back to the same card. -/
theorem c4_add_build_login_page :
    ∀ (fs : FsState) (now : Str),
      fs.columns.contains ("todo".toStr) = true →
      hasFile fs ("todo".toStr) ("build-login-page.md".toStr) = false →
      isFullIso now = true →
      addCard fs ("todo".toStr) ("Build login page".toStr) ("medium".toStr) now =
        ({ fs with files := fs.files ++
            [⟨"todo".toStr, "build-login-page.md".toStr,
              serializeCard
                { id := "build-login-page".toStr,
                  title := "Build login page".toStr,
                  priority := "medium".toStr, labels := [],
                  created := now.takeWhile (fun c => c ≠ 'T'),
                  updated := none, description := [], checklist := [],
                  column := "todo".toStr, rank := none } now⟩] },
         Except.ok
          { id := "build-login-page".toStr,
            title := "Build login page".toStr,
            priority := "medium".toStr, labels := [],
            created := now.takeWhile (fun c => c ≠ 'T'),
            updated := none, description := [], checklist := [],
            column := "todo".toStr, rank := none }) ∧
      isDateOnly (now.takeWhile (fun c => c ≠ 'T')) = true ∧
      parseCard
        (serializeCard
          { id := "build-login-page".toStr,
            title := "Build login page".toStr,
            priority := "medium".toStr, labels := [],
            created := now.takeWhile (fun c => c ≠ 'T'),
            updated := none, description := [], checklist := [],
            column := "todo".toStr, rank := none } now)
        ("build-login-page.md".toStr) ("todo".toStr) =
        { id := "build-login-page".toStr,
          title := "Build login page".toStr,
          priority := "medium".toStr, labels := [],
          created := now.takeWhile (fun c => c ≠ 'T'),
          updated := none, description := [], checklist := [],
          column := "todo".toStr, rank := none } := by
  intro fs now hcol hnof hiso
  have hdate : isDateOnly (now.takeWhile (fun c => c ≠ 'T')) = true := by
    unfold isFullIso at hiso
    rw [Bool.and_eq_true] at hiso
    exact hiso.1
  have hwf : WfCard
      { id := "build-login-page".toStr,
        title := "Build login page".toStr,
        priority := "medium".toStr, labels := [],
        created := now.takeWhile (fun c => c ≠ 'T'),
        updated := none, description := [], checklist := [],
        column := "todo".toStr, rank := none } :=
    ⟨by simp only [wfVal]; decide, by simp only [wfFmVal, wfVal]; decide,
      wfFmVal_of_dateOnly hdate, by simp, Or.inl rfl, by simp⟩
  refine ⟨?_, hdate, ?_⟩
  · have hv : validName ("todo".toStr) = true := by decide
    have hcolL : (loadBoard fs).columns.contains ("todo".toStr) = true := hcol
    have hslug : slugify ("Build login page".toStr) = "build-login-page".toStr := by
      decide
    have happ : ("build-login-page".toStr) ++ (".md".toStr) =
        ("build-login-page.md".toStr) := by decide
    have hc2 : (decide ((("build-login-page".toStr) : Str) = []) ||
        !(("build-login-page".toStr).all isIdChar)) = false := by decide
    simp only [addCard, hv, Bool.not_true, Bool.false_eq_true, if_false, hcolL,
      hslug, happ, hc2, writeExclusive, hnof]
  · rw [parseCard_serializeCard _ now _ _ hwf]
    have hrep : replaceFirst ("build-login-page.md".toStr) (".md".toStr) [] =
        "build-login-page".toStr := by decide
    rw [hrep]

/-- C4 witness: the concrete call on an empty one-column board returns
the expected card with the date-only created stamp. -/
theorem c4_add_build_login_page_witness :
    (addCard { columns := ["todo".toStr], files := ([] : List FileEntry) }
      ("todo".toStr) ("Build login page".toStr) ("medium".toStr)
      ("2024-01-15T10:30:00.000Z".toStr)).2 =
      Except.ok
        { id := "build-login-page".toStr,
          title := "Build login page".toStr,
          priority := "medium".toStr, labels := [],
          created := "2024-01-15".toStr, updated := none, description := [],
          checklist := [], column := "todo".toStr, rank := none } := by
  have h := c4_add_build_login_page
    { columns := ["todo".toStr], files := [] }
    ("2024-01-15T10:30:00.000Z".toStr) (by decide) (by decide) (by decide)
  rw [h.1]
  rfl

/-- C6: when an `add` call succeeds, a second `add` with the same
column and title (any priority, any clock) fails with `CardExists`
and leaves the state — in particular the first card's file content —
unchanged. -/
theorem c6_add_twice_card_exists :
    ∀ (fs fs1 : FsState) (column title priority priority2 now1 now2 : Str)
      (card : Card),
      addCard fs column title priority now1 = (fs1, Except.ok card) →
      addCard fs1 column title priority2 now2 =
        (fs1, Except.error KErr.cardExists) := by
  intro fs fs1 column title priority priority2 now1 now2 card h1
  simp only [addCard] at h1
  cases hvb : validName column with
  | false => rw [hvb] at h1; simp at h1
  | true =>
    rw [hvb] at h1
    simp only [Bool.not_true, Bool.false_eq_true, if_false] at h1
    cases hcolb : (loadBoard fs).columns.contains column with
    | false => rw [hcolb] at h1; simp at h1
    | true =>
      rw [hcolb] at h1
      simp only [Bool.not_true, Bool.false_eq_true, if_false] at h1
      cases hidb : (decide (slugify title = []) ||
          !(slugify title).all isIdChar) with
      | true => rw [hidb] at h1; simp at h1
      | false =>
        rw [hidb] at h1
        simp only [Bool.false_eq_true, if_false] at h1
        cases hhf : hasFile fs column (slugify title ++ ".md".toStr) with
        | true =>
          unfold writeExclusive at h1
          rw [hhf] at h1
          simp at h1
        | false =>
          unfold writeExclusive at h1
          rw [hhf] at h1
          simp only [Bool.false_eq_true, if_false] at h1
          rw [Prod.mk.injEq] at h1
          obtain ⟨hfs1, hcard⟩ := h1
          subst hfs1
          have hcol2 : (loadBoard { fs with files := fs.files ++
              [⟨column, slugify title ++ ".md".toStr,
                serializeCard
                  { id := slugify title, title := title, priority := priority,
                    labels := [],
                    created := now1.takeWhile (fun c => c ≠ 'T'),
                    description := [], checklist := [], column := column,
                    rank := none } now1⟩] }).columns.contains column = true := hcolb
          have hhf2 : hasFile { fs with files := fs.files ++
              [⟨column, slugify title ++ ".md".toStr,
                serializeCard
                  { id := slugify title, title := title, priority := priority,
                    labels := [],
                    created := now1.takeWhile (fun c => c ≠ 'T'),
                    description := [], checklist := [], column := column,
                    rank := none } now1⟩] } column
              (slugify title ++ ".md".toStr) = true := by
            simp [hasFile, fileKeyEq]
          simp only [addCard, hvb, Bool.not_true, Bool.false_eq_true, if_false,
            hcol2, hidb, writeExclusive, hhf2, if_true]

/-- C6 witness: adding the same title to the same column twice on a
concrete board fails with `CardExists` without changing the state. -/
theorem c6_add_twice_card_exists_witness :
    addCard
      { columns := ["todo".toStr]
        files := [⟨"todo".toStr, "a.md".toStr,
          serializeCard
            { id := "a".toStr, title := "A".toStr, priority := "medium".toStr,
              labels := [], created := "2024-01-15".toStr, updated := none,
              description := [], checklist := [], column := "todo".toStr,
              rank := none } ("2024-01-15T10:30:00.000Z".toStr)⟩] }
      ("todo".toStr) ("A".toStr) ("low".toStr)
      ("2024-02-01T00:00:00.000Z".toStr) =
      ({ columns := ["todo".toStr]
         files := [⟨"todo".toStr, "a.md".toStr,
           serializeCard
             { id := "a".toStr, title := "A".toStr, priority := "medium".toStr,
               labels := [], created := "2024-01-15".toStr, updated := none,
               description := [], checklist := [], column := "todo".toStr,
               rank := none } ("2024-01-15T10:30:00.000Z".toStr)⟩] },
       Except.error KErr.cardExists) :=
  c6_add_twice_card_exists
    { columns := ["todo".toStr], files := [] }
    { columns := ["todo".toStr]
      files := [⟨"todo".toStr, "a.md".toStr,
        serializeCard
          { id := "a".toStr, title := "A".toStr, priority := "medium".toStr,
            labels := [], created := "2024-01-15".toStr, updated := none,
            description := [], checklist := [], column := "todo".toStr,
            rank := none } ("2024-01-15T10:30:00.000Z".toStr)⟩] }
    ("todo".toStr) ("A".toStr) ("medium".toStr) ("low".toStr)
    ("2024-01-15T10:30:00.000Z".toStr) ("2024-02-01T00:00:00.000Z".toStr)
    { id := "a".toStr, title := "A".toStr, priority := "medium".toStr,
      labels := [], created := "2024-01-15".toStr, updated := none,
      description := [], checklist := [], column := "todo".toStr,
      rank := none }
    rfl

/-- C7: for a card with a checklist of length N, toggling index 0 or
N+1 fails with `IndexOutOfRange` and changes nothing; every index in
1..N succeeds, flips the checked flag of exactly the item at that
1-based index, leaves every other item and every other field (except
`updated`) unchanged, sets `updated`, and persists the card. -/
theorem c7_checklist_toggle :
    ∀ (cards : List Card) (cardId now : Str) (card : Card),
      validName cardId = true →
      findCard cards cardId = some card →
      checklistToggle cards cardId 0 now =
        (cards, Except.error KErr.indexOutOfRange) ∧
      checklistToggle cards cardId ((card.checklist.length : Int) + 1) now =
        (cards, Except.error KErr.indexOutOfRange) ∧
      (∀ i : Int, 1 ≤ i → i ≤ (card.checklist.length : Int) →
        ∃ c2,
          checklistToggle cards cardId i now =
            (cards.map (fun c =>
              if c.id = cardId && c.column = card.column then c2 else c),
             Except.ok c2) ∧
          c2.updated = some now ∧
          c2.title = card.title ∧ c2.priority = card.priority ∧
          c2.labels = card.labels ∧ c2.created = card.created ∧
          c2.description = card.description ∧ c2.column = card.column ∧
          c2.rank = card.rank ∧ c2.id = card.id ∧
          c2.checklist.length = card.checklist.length ∧
          (∀ j : Nat, c2.checklist[j]? =
            (card.checklist[j]?).map (fun it =>
              if (j : Int) = i - 1 then { it with checked := !it.checked }
              else it))) := by
  intro cards cardId now card hv hfind
  refine ⟨?_, ?_, ?_⟩
  · simp only [checklistToggle, hv, Bool.not_true, Bool.false_eq_true, if_false,
      hfind]
    rw [if_pos (show _ from by rw [Bool.or_eq_true]; exact Or.inl (by decide))]
  · simp only [checklistToggle, hv, Bool.not_true, Bool.false_eq_true, if_false,
      hfind]
    rw [if_pos (show _ from by
      rw [Bool.or_eq_true]; exact Or.inr (decide_eq_true (by omega)))]
  · intro i h1 h2
    have hcond : (decide (i < 1) ||
        decide (i > (card.checklist.length : Int))) = false := by
      simp only [Bool.or_eq_false_iff, decide_eq_false_iff_not]
      constructor <;> omega
    refine ⟨{ card with
        checklist := card.checklist.enum.map (fun p =>
          if ((p.1 : Int)) = i - 1 then { p.2 with checked := !p.2.checked }
          else p.2)
        updated := some now },
      ?_, rfl, rfl, rfl, rfl, rfl, rfl, rfl, rfl, rfl, ?_, ?_⟩
    · simp only [checklistToggle, hv, Bool.not_true, Bool.false_eq_true, if_false,
        hfind, hcond]
    · simp
    · intro j
      cases hj : card.checklist[j]? with
      | none => simp [List.getElem?_map, List.getElem?_enum, hj]
      | some it => simp [List.getElem?_map, List.getElem?_enum, hj]

/-- C7 witness: toggling index 0 on a concrete two-item checklist
fails with `IndexOutOfRange` and leaves the card list unchanged. -/
theorem c7_checklist_toggle_witness :
    checklistToggle
      [{ id := "a".toStr, title := "A".toStr, priority := "medium".toStr,
         labels := [], created := "2024-01-15".toStr, updated := none,
         description := [],
         checklist := [⟨"x".toStr, false⟩, ⟨"y".toStr, true⟩],
         column := "todo".toStr, rank := none }]
      ("a".toStr) 0 ("2024-02-01T00:00:00.000Z".toStr) =
      ([{ id := "a".toStr, title := "A".toStr, priority := "medium".toStr,
          labels := [], created := "2024-01-15".toStr, updated := none,
          description := [],
          checklist := [⟨"x".toStr, false⟩, ⟨"y".toStr, true⟩],
          column := "todo".toStr, rank := none }],
       Except.error KErr.indexOutOfRange) :=
  (c7_checklist_toggle
    [{ id := "a".toStr, title := "A".toStr, priority := "medium".toStr,
       labels := [], created := "2024-01-15".toStr, updated := none,
       description := [],
       checklist := [⟨"x".toStr, false⟩, ⟨"y".toStr, true⟩],
       column := "todo".toStr, rank := none }]
    ("a".toStr) ("2024-02-01T00:00:00.000Z".toStr)
    { id := "a".toStr, title := "A".toStr, priority := "medium".toStr,
      labels := [], created := "2024-01-15".toStr, updated := none,
      description := [],
      checklist := [⟨"x".toStr, false⟩, ⟨"y".toStr, true⟩],
      column := "todo".toStr, rank := none }
    (by decide) (by decide)).1

/-- C9: in every reachable scheduler state the number of render
callbacks in flight equals 1 exactly while `isRendering` holds, so
two renders never run concurrently; a timer firing while a render is
in flight starts no render and records the change in `pendingRender`;
and a render finishing with a pending change consumes the flag and
rearms the timer, producing exactly one follow-up render. -/
theorem c9_render_scheduling :
    (∀ s : WState, WReach s → s.inflight = (if s.isRendering then 1 else 0)) ∧
    (∀ s : WState, WReach s → s.inflight ≤ 1) ∧
    (∀ (s s' : WState), s.isRendering = true →
      wStep s WEvent.timerFire = some s' →
      s' = { s with timerSet := false, pendingRender := true } ∧
      s'.isRendering = true ∧ s'.inflight = s.inflight) ∧
    (∀ (s s' : WState), s.pendingRender = true →
      wStep s WEvent.renderFinish = some s' →
      s' = { s with
              isRendering := false
              inflight := s.inflight - 1
              pendingRender := false
              timerSet := true }) := by
  have hinv : ∀ s : WState, WReach s →
      s.inflight = (if s.isRendering then 1 else 0) := by
    intro s h
    induction h with
    | init => rfl
    | step h1 h2 ih =>
      rename_i s0 s1 e
      cases e with
      | change =>
        simp only [wStep] at h2
        injection h2 with h2
        subst h2
        simpa using ih
      | timerFire =>
        simp only [wStep] at h2
        by_cases ht : s0.timerSet = true
        · rw [if_pos ht] at h2
          by_cases hr : s0.isRendering = true
          · rw [if_pos hr] at h2
            injection h2 with h2
            subst h2
            simpa using ih
          · rw [if_neg hr] at h2
            injection h2 with h2
            subst h2
            have hr0 : s0.isRendering = false := by simpa using hr
            rw [hr0] at ih
            simp only [Bool.false_eq_true, if_false] at ih
            simp [ih]
        · rw [if_neg ht] at h2
          exact absurd h2 (by simp)
      | renderFinish =>
        simp only [wStep] at h2
        by_cases hr : s0.isRendering = true
        · rw [if_pos hr] at h2
          injection h2 with h2
          subst h2
          rw [hr] at ih
          simp only [if_true] at ih
          simp [ih]
        · rw [if_neg hr] at h2
          exact absurd h2 (by simp)
  refine ⟨hinv, ?_, ?_, ?_⟩
  · intro s h
    rw [hinv s h]
    split_ifs <;> simp
  · intro s s1 hr hstep
    simp only [wStep] at hstep
    by_cases ht : s.timerSet = true
    · rw [if_pos ht, if_pos hr] at hstep
      injection hstep with h2
      subst h2
      exact ⟨rfl, hr, rfl⟩
    · rw [if_neg ht] at hstep
      exact absurd hstep (by simp)
  · intro s s1 hp hstep
    simp only [wStep] at hstep
    by_cases hr : s.isRendering = true
    · rw [if_pos hr] at hstep
      injection hstep with h2
      subst h2
      simp [hp]
    · rw [if_neg hr] at hstep
      exact absurd hstep (by simp)

/-- C9 witness: when the timer fires in the concrete state with a
render in flight, the scheduler only marks the render pending. -/
theorem c9_render_scheduling_witness :
    (⟨false, true, true, 1⟩ : WState) =
      { (⟨true, true, false, 1⟩ : WState) with
        timerSet := false, pendingRender := true } ∧
    (⟨false, true, true, 1⟩ : WState).isRendering = true ∧
    (⟨false, true, true, 1⟩ : WState).inflight =
      (⟨true, true, false, 1⟩ : WState).inflight :=
  c9_render_scheduling.2.2.1 ⟨true, true, false, 1⟩ ⟨false, true, true, 1⟩
    rfl rfl

theorem findCard_append (l1 l2 : List Card) (cardId : Str) :
    findCard (l1 ++ l2) cardId = (findCard l1 cardId).or (findCard l2 cardId) := by
  unfold findCard
  exact List.find?_append

theorem findCard_flatten_none (L : List (List Card)) (cardId : Str)
    (rest : List Card) (h : ∀ l ∈ L, findCard l cardId = none) :
    findCard (L.flatten ++ rest) cardId = findCard rest cardId := by
  induction L with
  | nil => simp
  | cons l ls ih =>
    rw [List.flatten_cons, List.append_assoc, findCard_append, h l (by simp),
      Option.none_or]
    exact ih (fun x hx => h x (by simp [hx]))

theorem colCards_column (fs : FsState) (col : Str) :
    ∀ x ∈ colCards fs col, x.column = col := by
  intro x hx
  obtain ⟨e, he, hx2⟩ := List.mem_map.mp hx
  rw [← hx2]
  rfl

theorem mem_writeAtomic_files {e : FileEntry} {fs : FsState} (he : e ∈ fs.files)
    {col : Str} (hcol : e.column ≠ col) (fn content : Str) :
    e ∈ (writeAtomic fs col fn content).files := by
  unfold writeAtomic
  by_cases hf : hasFile fs col fn = true
  · rw [if_pos hf]
    refine List.mem_map.mpr ⟨e, he, ?_⟩
    simp [fileKeyEq, hcol]
  · rw [if_neg hf]
    exact List.mem_append_left _ he

theorem mem_foldl_writeAtomic (updates : List (Str × Str × Str)) :
    ∀ (fs : FsState) (e : FileEntry), e ∈ fs.files →
    (∀ u ∈ updates, u.1 ≠ e.column) →
    e ∈ (updates.foldl (fun acc u => writeAtomic acc u.1 u.2.1 u.2.2) fs).files := by
  induction updates with
  | nil => intro fs e he _; exact he
  | cons u us ih =>
    intro fs e he hcol
    rw [List.foldl_cons]
    exact ih _ e
      (mem_writeAtomic_files he (fun hx => hcol u (by simp) hx.symm) u.2.1 u.2.2)
      (fun v hv => hcol v (by simp [hv]))

theorem mem_unlinkFile_files {e : FileEntry} {fs : FsState} (he : e ∈ fs.files)
    {col : Str} (hcol : e.column ≠ col) (fn : Str) :
    e ∈ (unlinkFile fs col fn).files := by
  unfold unlinkFile
  refine List.mem_filter.mpr ⟨he, ?_⟩
  simp [fileKeyEq, hcol]

/-- C10: when a column `col1` that precedes the columns `cols2` in the
board configuration holds a card with the looked-up id (and no earlier
column does), the id-addressed operations resolve the id to that
card: `findCard` over the loaded board returns the `col1` card, `get`
returns it, `delete` unlinks only `col1`'s file, `edit` rewrites only
`col1`'s file, `move` moves only `col1`'s file, and `rank` rewrites
files of `col1` only — every file of a different column, in
particular a same-id file in a later column, is untouched. -/
theorem c10_duplicate_id_earliest_column :
    ∀ (fs : FsState) (cardId : Str) (cols1 cols2 : List Str) (col1 : Str)
      (card : Card) (p : CardPatch) (now : Str),
      fs.columns = cols1 ++ col1 :: cols2 →
      (∀ c ∈ cols1, findCard (colCards fs c) cardId = none) →
      findCard (colCards fs col1) cardId = some card →
      validName cardId = true →
      (findCard (loadBoard fs).cards cardId = some card ∧
       card.column = col1 ∧
       getCard fs cardId = (fs, Except.ok card) ∧
       deleteCard fs cardId =
         (unlinkFile fs col1 (cardId ++ ".md".toStr), Except.ok ()) ∧
       (∀ e ∈ fs.files, e.column ≠ col1 → e ∈ (deleteCard fs cardId).1.files) ∧
       editCard fs cardId p now =
         (writeAtomic fs col1 (cardId ++ ".md".toStr)
           (serializeCard (applyPatch card p) now), Except.ok ()) ∧
       (∀ e ∈ fs.files, e.column ≠ col1 →
         e ∈ (editCard fs cardId p now).1.files) ∧
       (∀ toColumn : Str, validName toColumn = true →
         fs.columns.contains toColumn = true → col1 ≠ toColumn →
         hasFile fs toColumn (cardId ++ ".md".toStr) = false →
         moveCard fs cardId toColumn now =
           (unlinkFile { fs with files := fs.files ++
               [⟨toColumn, cardId ++ ".md".toStr,
                 serializeCard { card with rank := none } now⟩] } col1
             (cardId ++ ".md".toStr), Except.ok ()) ∧
         (∀ e ∈ fs.files, e.column ≠ col1 →
           e ∈ (moveCard fs cardId toColumn now).1.files)) ∧
       (∀ pos : Int, 1 ≤ pos → ∀ e ∈ fs.files, e.column ≠ col1 →
         e ∈ (rankCard fs cardId pos now).1.files)) := by
  intro fs cardId cols1 cols2 col1 card p now hcols hnone h1 hv
  have hfind : findCard (loadBoard fs).cards cardId = some card := by
    have hlb : (loadBoard fs).cards =
        ((cols1 ++ col1 :: cols2).map (fun c => colCards fs c)).flatten := by
      rw [← hcols]
      rfl
    rw [hlb, List.map_append, List.map_cons, List.flatten_append,
      List.flatten_cons]
    rw [findCard_flatten_none _ _ _ (by
      intro l hl
      obtain ⟨c, hc, rfl⟩ := List.mem_map.mp hl
      exact hnone c hc)]
    rw [findCard_append, h1]
    rfl
  have hcol1 : card.column = col1 := by
    have hmem : card ∈ colCards fs col1 := List.mem_of_find?_eq_some h1
    exact colCards_column fs col1 card hmem
  refine ⟨hfind, hcol1, ?_, ?_, ?_, ?_, ?_, ?_, ?_⟩
  · simp only [getCard, hv, Bool.not_true, Bool.false_eq_true, if_false, hfind]
  · simp only [deleteCard, hv, Bool.not_true, Bool.false_eq_true, if_false,
      hfind, hcol1]
  · intro e he hecol
    have hdel : deleteCard fs cardId =
        (unlinkFile fs col1 (cardId ++ ".md".toStr), Except.ok ()) := by
      simp only [deleteCard, hv, Bool.not_true, Bool.false_eq_true, if_false,
        hfind, hcol1]
    rw [hdel]
    exact mem_unlinkFile_files he hecol _
  · simp only [editCard, hv, Bool.not_true, Bool.false_eq_true, if_false,
      hfind, hcol1]
  · intro e he hecol
    have hed : editCard fs cardId p now =
        (writeAtomic fs col1 (cardId ++ ".md".toStr)
          (serializeCard (applyPatch card p) now), Except.ok ()) := by
      simp only [editCard, hv, Bool.not_true, Bool.false_eq_true, if_false,
        hfind, hcol1]
    rw [hed]
    exact mem_writeAtomic_files he hecol _ _
  · intro toColumn hv2 hcont hne hnof
    have hcolL : (loadBoard fs).columns.contains toColumn = true := hcont
    have hmv : moveCard fs cardId toColumn now =
        (unlinkFile { fs with files := fs.files ++
            [⟨toColumn, cardId ++ ".md".toStr,
              serializeCard { card with rank := none } now⟩] } col1
          (cardId ++ ".md".toStr), Except.ok ()) := by
      simp only [moveCard, hv, hv2, Bool.not_true, Bool.false_eq_true, if_false,
        hcolL, hfind]
      rw [if_neg (show ¬(card.column = toColumn) from by
        rw [hcol1]; exact hne)]
      simp only [writeExclusive, hnof, Bool.false_eq_true, if_false, hcol1]
    refine ⟨hmv, ?_⟩
    intro e he hecol
    rw [hmv]
    exact mem_unlinkFile_files (List.mem_append_left _ he) hecol _
  · intro pos hpos e he hecol
    simp only [rankCard, hv, Bool.not_true, Bool.false_eq_true, if_false, hfind]
    rw [if_neg (show ¬(pos < 1) from by omega)]
    refine mem_foldl_writeAtomic _ fs e he ?_
    intro u hu
    obtain ⟨pr, hpr, hpru⟩ := List.mem_filterMap.mp hu
    by_cases hcnd : pr.2.rank ≠ some ((pr.1 : Int) + 1)
    · rw [if_pos hcnd] at hpru
      injection hpru with hpru
      have hseq := List.getElem?_mem (List.mem_enum_iff_getElem?.mp hpr)
      have hxcol : pr.2.column = card.column := by
        rcases (List.mem_insertIdx (Nat.min_le_right _ _)).mp hseq with
          heqc | hxr
        · rw [heqc]
        · have hs : pr.2 ∈ List.insertionSort (fun a b => cmpCards a b ≤ 0)
              ((loadBoard fs).cards.filter (fun c =>
                c.column = card.column && c.priority = card.priority)) := by
            split at hxr
            · exact List.eraseIdx_subset _ _ hxr
            · exact hxr
          have hg := (List.perm_insertionSort _ _).subset hs
          have hmf := (List.mem_filter.mp hg).2
          rw [Bool.and_eq_true, decide_eq_true_eq, decide_eq_true_eq] at hmf
          exact hmf.1
      rw [← hpru]
      show pr.2.column ≠ e.column
      rw [hxcol, hcol1]
      exact fun hx => hecol hx.symm
    · rw [if_neg hcnd] at hpru
      exact absurd hpru (by simp)

/-- C10 witness: with `a.md` present in both `todo` and `doing`,
`get("a")` returns the card of `todo`, the column listed first. -/
theorem c10_duplicate_id_earliest_column_witness :
    getCard
      { columns := ["todo".toStr, "doing".toStr]
        files := [⟨"todo".toStr, "a.md".toStr,
          "---\npriority: medium\ncreated: 2024-01-15\n---\n# A1".toStr⟩,
          ⟨"doing".toStr, "a.md".toStr,
          "---\npriority: high\ncreated: 2024-01-16\n---\n# A2".toStr⟩] }
      ("a".toStr) =
      ({ columns := ["todo".toStr, "doing".toStr]
         files := [⟨"todo".toStr, "a.md".toStr,
           "---\npriority: medium\ncreated: 2024-01-15\n---\n# A1".toStr⟩,
           ⟨"doing".toStr, "a.md".toStr,
           "---\npriority: high\ncreated: 2024-01-16\n---\n# A2".toStr⟩] },
       Except.ok
        { id := "a".toStr, title := "A1".toStr, priority := "medium".toStr,
          labels := [], created := "2024-01-15".toStr, updated := none,
          description := [], checklist := [], column := "todo".toStr,
          rank := none }) :=
  (c10_duplicate_id_earliest_column
    { columns := ["todo".toStr, "doing".toStr]
      files := [⟨"todo".toStr, "a.md".toStr,
        "---\npriority: medium\ncreated: 2024-01-15\n---\n# A1".toStr⟩,
        ⟨"doing".toStr, "a.md".toStr,
        "---\npriority: high\ncreated: 2024-01-16\n---\n# A2".toStr⟩] }
    ("a".toStr) [] (["doing".toStr]) ("todo".toStr)
    { id := "a".toStr, title := "A1".toStr, priority := "medium".toStr,
      labels := [], created := "2024-01-15".toStr, updated := none,
      description := [], checklist := [], column := "todo".toStr,
      rank := none }
    {} ("2024-02-01T00:00:00.000Z".toStr)
    rfl (by simp) (by decide) (by decide)).2.2.1

theorem parse_serialize_self (c : Card) (now : Str) (h : WfCard c)
    (hupd : c.updated = none)
    (hid : replaceFirst (c.id ++ ".md".toStr) (".md".toStr) [] = c.id) :
    parseCard (serializeCard c now) (c.id ++ ".md".toStr) c.column = c := by
  rw [parseCard_serializeCard c now _ _ h, hid]
  cases c with
  | mk id title priority labels created updated description checklist column rank =>
    simp only [] at hupd
    subst hupd
    rfl

theorem rankCard_eval (fs : FsState) (cardId : Str) (pos : Int) (now : Str)
    (card : Card) (grp sorted removed seq : List Card)
    (updates : List (Str × Str × Str))
    (hv : validName cardId = true) (hpos : ¬ pos < 1)
    (hfind : findCard (loadBoard fs).cards cardId = some card)
    (hgrp : (loadBoard fs).cards.filter (fun c =>
      c.column = card.column && c.priority = card.priority) = grp)
    (hsorted : List.insertionSort (fun a b => cmpCards a b ≤ 0) grp = sorted)
    (hremoved : (match sorted.findIdx? (fun c => c.id = cardId) with
       | some i => sorted.eraseIdx i
       | none => sorted) = removed)
    (hseq : removed.insertIdx (min (pos - 1).toNat removed.length) card = seq)
    (hupd : (seq.enum).filterMap (fun p =>
        if p.2.rank ≠ some ((p.1 : Int) + 1) then
          some (p.2.column, p.2.id ++ ".md".toStr,
            serializeCard { p.2 with rank := some ((p.1 : Int) + 1) } now)
        else none) = updates) :
    rankCard fs cardId pos now =
      (updates.foldl (fun acc u => writeAtomic acc u.1 u.2.1 u.2.2) fs,
       Except.ok ()) := by
  simp only [rankCard, hv, Bool.not_true, Bool.false_eq_true, if_false, hfind]
  rw [if_neg hpos]
  rw [hgrp, hsorted, hremoved, hseq, hupd]

/-- C2: in a group of three `todo` cards of priority `medium`, all
initially unranked, with created stamps strictly ascending
a < b < c, executing `rank("task-a", 1)` and then `rank("task-c", 1)`
persists the ranks c = 1, a = 2, b = 3. -/
theorem c2_rank_twice :
    ∀ (ca cb cc now1 now2 : Str),
      wfFmVal ca → wfFmVal cb → wfFmVal cc →
      localeCmp ca cb < 0 → localeCmp cb cc < 0 →
      ∃ fs1 fs2 : FsState,
        rankCard
          (c2Fs (c2Card ("task-a".toStr) ("Task A".toStr) ca none)
            (c2Card ("task-b".toStr) ("Task B".toStr) cb none)
            (c2Card ("task-c".toStr) ("Task C".toStr) cc none) now1)
          ("task-a".toStr) 1 now1 = (fs1, Except.ok ()) ∧
        rankCard fs1 ("task-c".toStr) 1 now2 = (fs2, Except.ok ()) ∧
        (loadBoard fs2).cards.map (fun c => (c.id, c.rank)) =
          [("task-a".toStr, some 2), ("task-b".toStr, some 3),
           ("task-c".toStr, some 1)] := by
  intro ca cb cc now1 now2 hca hcb hcc hab hbc
  have hwA0 : WfCard (c2Card ("task-a".toStr) ("Task A".toStr) ca none) :=
    ⟨by simp only [c2Card, wfVal]; decide,
     by simp only [c2Card, wfFmVal, wfVal]; decide,
     hca, by simp [c2Card], Or.inl rfl, by simp [c2Card]⟩
  have hwB0 : WfCard (c2Card ("task-b".toStr) ("Task B".toStr) cb none) :=
    ⟨by simp only [c2Card, wfVal]; decide,
     by simp only [c2Card, wfFmVal, wfVal]; decide,
     hcb, by simp [c2Card], Or.inl rfl, by simp [c2Card]⟩
  have hwC0 : WfCard (c2Card ("task-c".toStr) ("Task C".toStr) cc none) :=
    ⟨by simp only [c2Card, wfVal]; decide,
     by simp only [c2Card, wfFmVal, wfVal]; decide,
     hcc, by simp [c2Card], Or.inl rfl, by simp [c2Card]⟩
  have hwA1 : WfCard (c2Card ("task-a".toStr) ("Task A".toStr) ca (some 1)) := hwA0
  have hwB2 : WfCard (c2Card ("task-b".toStr) ("Task B".toStr) cb (some 2)) := hwB0
  have hwC3 : WfCard (c2Card ("task-c".toStr) ("Task C".toStr) cc (some 3)) := hwC0
  have hwA2 : WfCard (c2Card ("task-a".toStr) ("Task A".toStr) ca (some 2)) := hwA0
  have hwB3 : WfCard (c2Card ("task-b".toStr) ("Task B".toStr) cb (some 3)) := hwB0
  have hwC1 : WfCard (c2Card ("task-c".toStr) ("Task C".toStr) cc (some 1)) := hwC0
  have hpA0 : parseCard
      (serializeCard (c2Card ("task-a".toStr) ("Task A".toStr) ca none) now1)
      ("task-a".toStr ++ ".md".toStr) ("todo".toStr) =
      c2Card ("task-a".toStr) ("Task A".toStr) ca none :=
    parse_serialize_self _ now1 hwA0 rfl rfl
  have hpB0 : parseCard
      (serializeCard (c2Card ("task-b".toStr) ("Task B".toStr) cb none) now1)
      ("task-b".toStr ++ ".md".toStr) ("todo".toStr) =
      c2Card ("task-b".toStr) ("Task B".toStr) cb none :=
    parse_serialize_self _ now1 hwB0 rfl rfl
  have hpC0 : parseCard
      (serializeCard (c2Card ("task-c".toStr) ("Task C".toStr) cc none) now1)
      ("task-c".toStr ++ ".md".toStr) ("todo".toStr) =
      c2Card ("task-c".toStr) ("Task C".toStr) cc none :=
    parse_serialize_self _ now1 hwC0 rfl rfl
  have hpA1 : parseCard
      (serializeCard (c2Card ("task-a".toStr) ("Task A".toStr) ca (some 1)) now1)
      ("task-a".toStr ++ ".md".toStr) ("todo".toStr) =
      c2Card ("task-a".toStr) ("Task A".toStr) ca (some 1) :=
    parse_serialize_self _ now1 hwA1 rfl rfl
  have hpB2 : parseCard
      (serializeCard (c2Card ("task-b".toStr) ("Task B".toStr) cb (some 2)) now1)
      ("task-b".toStr ++ ".md".toStr) ("todo".toStr) =
      c2Card ("task-b".toStr) ("Task B".toStr) cb (some 2) :=
    parse_serialize_self _ now1 hwB2 rfl rfl
  have hpC3 : parseCard
      (serializeCard (c2Card ("task-c".toStr) ("Task C".toStr) cc (some 3)) now1)
      ("task-c".toStr ++ ".md".toStr) ("todo".toStr) =
      c2Card ("task-c".toStr) ("Task C".toStr) cc (some 3) :=
    parse_serialize_self _ now1 hwC3 rfl rfl
  have hpA2 : parseCard
      (serializeCard (c2Card ("task-a".toStr) ("Task A".toStr) ca (some 2)) now2)
      ("task-a".toStr ++ ".md".toStr) ("todo".toStr) =
      c2Card ("task-a".toStr) ("Task A".toStr) ca (some 2) :=
    parse_serialize_self _ now2 hwA2 rfl rfl
  have hpB3 : parseCard
      (serializeCard (c2Card ("task-b".toStr) ("Task B".toStr) cb (some 3)) now2)
      ("task-b".toStr ++ ".md".toStr) ("todo".toStr) =
      c2Card ("task-b".toStr) ("Task B".toStr) cb (some 3) :=
    parse_serialize_self _ now2 hwB3 rfl rfl
  have hpC1 : parseCard
      (serializeCard (c2Card ("task-c".toStr) ("Task C".toStr) cc (some 1)) now2)
      ("task-c".toStr ++ ".md".toStr) ("todo".toStr) =
      c2Card ("task-c".toStr) ("Task C".toStr) cc (some 1) :=
    parse_serialize_self _ now2 hwC1 rfl rfl
  -- first load
  have hload0 : (loadBoard (c2Fs
      (c2Card ("task-a".toStr) ("Task A".toStr) ca none)
      (c2Card ("task-b".toStr) ("Task B".toStr) cb none)
      (c2Card ("task-c".toStr) ("Task C".toStr) cc none) now1)).cards =
      [c2Card ("task-a".toStr) ("Task A".toStr) ca none,
       c2Card ("task-b".toStr) ("Task B".toStr) cb none,
       c2Card ("task-c".toStr) ("Task C".toStr) cc none] := by
    have hstruct : (loadBoard (c2Fs
        (c2Card ("task-a".toStr) ("Task A".toStr) ca none)
        (c2Card ("task-b".toStr) ("Task B".toStr) cb none)
        (c2Card ("task-c".toStr) ("Task C".toStr) cc none) now1)).cards =
        [parseCard
          (serializeCard (c2Card ("task-a".toStr) ("Task A".toStr) ca none) now1)
          ("task-a".toStr ++ ".md".toStr) ("todo".toStr),
         parseCard
          (serializeCard (c2Card ("task-b".toStr) ("Task B".toStr) cb none) now1)
          ("task-b".toStr ++ ".md".toStr) ("todo".toStr),
         parseCard
          (serializeCard (c2Card ("task-c".toStr) ("Task C".toStr) cc none) now1)
          ("task-c".toStr ++ ".md".toStr) ("todo".toStr)] := rfl
    rw [hstruct, hpA0, hpB0, hpC0]
  have hfind0 : findCard (loadBoard (c2Fs
      (c2Card ("task-a".toStr) ("Task A".toStr) ca none)
      (c2Card ("task-b".toStr) ("Task B".toStr) cb none)
      (c2Card ("task-c".toStr) ("Task C".toStr) cc none) now1)).cards
      ("task-a".toStr) = some (c2Card ("task-a".toStr) ("Task A".toStr) ca none) := by
    rw [hload0]
    rfl
  have hgrp0 : (loadBoard (c2Fs
      (c2Card ("task-a".toStr) ("Task A".toStr) ca none)
      (c2Card ("task-b".toStr) ("Task B".toStr) cb none)
      (c2Card ("task-c".toStr) ("Task C".toStr) cc none) now1)).cards.filter
      (fun c => c.column = (c2Card ("task-a".toStr) ("Task A".toStr) ca none).column &&
        c.priority = (c2Card ("task-a".toStr) ("Task A".toStr) ca none).priority) =
      [c2Card ("task-a".toStr) ("Task A".toStr) ca none,
       c2Card ("task-b".toStr) ("Task B".toStr) cb none,
       c2Card ("task-c".toStr) ("Task C".toStr) cc none] := by
    rw [hload0]
    rfl
  have hcBC : cmpCards (c2Card ("task-b".toStr) ("Task B".toStr) cb none)
      (c2Card ("task-c".toStr) ("Task C".toStr) cc none) ≤ 0 := by
    have h : cmpCards (c2Card ("task-b".toStr) ("Task B".toStr) cb none)
        (c2Card ("task-c".toStr) ("Task C".toStr) cc none) = localeCmp cb cc := rfl
    rw [h]
    omega
  have hcAB : cmpCards (c2Card ("task-a".toStr) ("Task A".toStr) ca none)
      (c2Card ("task-b".toStr) ("Task B".toStr) cb none) ≤ 0 := by
    have h : cmpCards (c2Card ("task-a".toStr) ("Task A".toStr) ca none)
        (c2Card ("task-b".toStr) ("Task B".toStr) cb none) = localeCmp ca cb := rfl
    rw [h]
    omega
  have hsort0 : List.insertionSort (fun a b => cmpCards a b ≤ 0)
      [c2Card ("task-a".toStr) ("Task A".toStr) ca none,
       c2Card ("task-b".toStr) ("Task B".toStr) cb none,
       c2Card ("task-c".toStr) ("Task C".toStr) cc none] =
      [c2Card ("task-a".toStr) ("Task A".toStr) ca none,
       c2Card ("task-b".toStr) ("Task B".toStr) cb none,
       c2Card ("task-c".toStr) ("Task C".toStr) cc none] := by
    have e1 : List.insertionSort (fun a b => cmpCards a b ≤ 0)
        [c2Card ("task-a".toStr) ("Task A".toStr) ca none,
         c2Card ("task-b".toStr) ("Task B".toStr) cb none,
         c2Card ("task-c".toStr) ("Task C".toStr) cc none] =
        List.orderedInsert (fun a b => cmpCards a b ≤ 0)
          (c2Card ("task-a".toStr) ("Task A".toStr) ca none)
          (List.orderedInsert (fun a b => cmpCards a b ≤ 0)
            (c2Card ("task-b".toStr) ("Task B".toStr) cb none)
            [c2Card ("task-c".toStr) ("Task C".toStr) cc none]) := rfl
    have e2 : List.orderedInsert (fun a b => cmpCards a b ≤ 0)
        (c2Card ("task-b".toStr) ("Task B".toStr) cb none)
        [c2Card ("task-c".toStr) ("Task C".toStr) cc none] =
        [c2Card ("task-b".toStr) ("Task B".toStr) cb none,
         c2Card ("task-c".toStr) ("Task C".toStr) cc none] := by
      rw [List.orderedInsert]
      exact if_pos hcBC
    have e3 : List.orderedInsert (fun a b => cmpCards a b ≤ 0)
        (c2Card ("task-a".toStr) ("Task A".toStr) ca none)
        [c2Card ("task-b".toStr) ("Task B".toStr) cb none,
         c2Card ("task-c".toStr) ("Task C".toStr) cc none] =
        [c2Card ("task-a".toStr) ("Task A".toStr) ca none,
         c2Card ("task-b".toStr) ("Task B".toStr) cb none,
         c2Card ("task-c".toStr) ("Task C".toStr) cc none] := by
      rw [List.orderedInsert]
      exact if_pos hcAB
    rw [e1, e2, e3]
  have hrank1 := rankCard_eval
    (c2Fs (c2Card ("task-a".toStr) ("Task A".toStr) ca none)
      (c2Card ("task-b".toStr) ("Task B".toStr) cb none)
      (c2Card ("task-c".toStr) ("Task C".toStr) cc none) now1)
    ("task-a".toStr) 1 now1
    (c2Card ("task-a".toStr) ("Task A".toStr) ca none)
    [c2Card ("task-a".toStr) ("Task A".toStr) ca none,
     c2Card ("task-b".toStr) ("Task B".toStr) cb none,
     c2Card ("task-c".toStr) ("Task C".toStr) cc none]
    [c2Card ("task-a".toStr) ("Task A".toStr) ca none,
     c2Card ("task-b".toStr) ("Task B".toStr) cb none,
     c2Card ("task-c".toStr) ("Task C".toStr) cc none]
    [c2Card ("task-b".toStr) ("Task B".toStr) cb none,
     c2Card ("task-c".toStr) ("Task C".toStr) cc none]
    [c2Card ("task-a".toStr) ("Task A".toStr) ca none,
     c2Card ("task-b".toStr) ("Task B".toStr) cb none,
     c2Card ("task-c".toStr) ("Task C".toStr) cc none]
    [("todo".toStr, "task-a".toStr ++ ".md".toStr,
      serializeCard (c2Card ("task-a".toStr) ("Task A".toStr) ca (some 1)) now1),
     ("todo".toStr, "task-b".toStr ++ ".md".toStr,
      serializeCard (c2Card ("task-b".toStr) ("Task B".toStr) cb (some 2)) now1),
     ("todo".toStr, "task-c".toStr ++ ".md".toStr,
      serializeCard (c2Card ("task-c".toStr) ("Task C".toStr) cc (some 3)) now1)]
    (by decide) (by decide) hfind0 hgrp0 hsort0 rfl rfl rfl
  have hstep1 : rankCard
      (c2Fs (c2Card ("task-a".toStr) ("Task A".toStr) ca none)
        (c2Card ("task-b".toStr) ("Task B".toStr) cb none)
        (c2Card ("task-c".toStr) ("Task C".toStr) cc none) now1)
      ("task-a".toStr) 1 now1 =
      (c2Fs (c2Card ("task-a".toStr) ("Task A".toStr) ca (some 1))
        (c2Card ("task-b".toStr) ("Task B".toStr) cb (some 2))
        (c2Card ("task-c".toStr) ("Task C".toStr) cc (some 3)) now1,
       Except.ok ()) := by
    rw [hrank1]
    rfl
  -- second load
  have hload1 : (loadBoard (c2Fs
      (c2Card ("task-a".toStr) ("Task A".toStr) ca (some 1))
      (c2Card ("task-b".toStr) ("Task B".toStr) cb (some 2))
      (c2Card ("task-c".toStr) ("Task C".toStr) cc (some 3)) now1)).cards =
      [c2Card ("task-a".toStr) ("Task A".toStr) ca (some 1),
       c2Card ("task-b".toStr) ("Task B".toStr) cb (some 2),
       c2Card ("task-c".toStr) ("Task C".toStr) cc (some 3)] := by
    have hstruct : (loadBoard (c2Fs
        (c2Card ("task-a".toStr) ("Task A".toStr) ca (some 1))
        (c2Card ("task-b".toStr) ("Task B".toStr) cb (some 2))
        (c2Card ("task-c".toStr) ("Task C".toStr) cc (some 3)) now1)).cards =
        [parseCard
          (serializeCard (c2Card ("task-a".toStr) ("Task A".toStr) ca (some 1)) now1)
          ("task-a".toStr ++ ".md".toStr) ("todo".toStr),
         parseCard
          (serializeCard (c2Card ("task-b".toStr) ("Task B".toStr) cb (some 2)) now1)
          ("task-b".toStr ++ ".md".toStr) ("todo".toStr),
         parseCard
          (serializeCard (c2Card ("task-c".toStr) ("Task C".toStr) cc (some 3)) now1)
          ("task-c".toStr ++ ".md".toStr) ("todo".toStr)] := rfl
    rw [hstruct, hpA1, hpB2, hpC3]
  have hfind1 : findCard (loadBoard (c2Fs
      (c2Card ("task-a".toStr) ("Task A".toStr) ca (some 1))
      (c2Card ("task-b".toStr) ("Task B".toStr) cb (some 2))
      (c2Card ("task-c".toStr) ("Task C".toStr) cc (some 3)) now1)).cards
      ("task-c".toStr) =
      some (c2Card ("task-c".toStr) ("Task C".toStr) cc (some 3)) := by
    rw [hload1]
    rfl
  have hgrp1 : (loadBoard (c2Fs
      (c2Card ("task-a".toStr) ("Task A".toStr) ca (some 1))
      (c2Card ("task-b".toStr) ("Task B".toStr) cb (some 2))
      (c2Card ("task-c".toStr) ("Task C".toStr) cc (some 3)) now1)).cards.filter
      (fun c => c.column = (c2Card ("task-c".toStr) ("Task C".toStr) cc (some 3)).column &&
        c.priority = (c2Card ("task-c".toStr) ("Task C".toStr) cc (some 3)).priority) =
      [c2Card ("task-a".toStr) ("Task A".toStr) ca (some 1),
       c2Card ("task-b".toStr) ("Task B".toStr) cb (some 2),
       c2Card ("task-c".toStr) ("Task C".toStr) cc (some 3)] := by
    rw [hload1]
    rfl
  have hrank2 := rankCard_eval
    (c2Fs (c2Card ("task-a".toStr) ("Task A".toStr) ca (some 1))
      (c2Card ("task-b".toStr) ("Task B".toStr) cb (some 2))
      (c2Card ("task-c".toStr) ("Task C".toStr) cc (some 3)) now1)
    ("task-c".toStr) 1 now2
    (c2Card ("task-c".toStr) ("Task C".toStr) cc (some 3))
    [c2Card ("task-a".toStr) ("Task A".toStr) ca (some 1),
     c2Card ("task-b".toStr) ("Task B".toStr) cb (some 2),
     c2Card ("task-c".toStr) ("Task C".toStr) cc (some 3)]
    [c2Card ("task-a".toStr) ("Task A".toStr) ca (some 1),
     c2Card ("task-b".toStr) ("Task B".toStr) cb (some 2),
     c2Card ("task-c".toStr) ("Task C".toStr) cc (some 3)]
    [c2Card ("task-a".toStr) ("Task A".toStr) ca (some 1),
     c2Card ("task-b".toStr) ("Task B".toStr) cb (some 2)]
    [c2Card ("task-c".toStr) ("Task C".toStr) cc (some 3),
     c2Card ("task-a".toStr) ("Task A".toStr) ca (some 1),
     c2Card ("task-b".toStr) ("Task B".toStr) cb (some 2)]
    [("todo".toStr, "task-c".toStr ++ ".md".toStr,
      serializeCard (c2Card ("task-c".toStr) ("Task C".toStr) cc (some 1)) now2),
     ("todo".toStr, "task-a".toStr ++ ".md".toStr,
      serializeCard (c2Card ("task-a".toStr) ("Task A".toStr) ca (some 2)) now2),
     ("todo".toStr, "task-b".toStr ++ ".md".toStr,
      serializeCard (c2Card ("task-b".toStr) ("Task B".toStr) cb (some 3)) now2)]
    (by decide) (by decide) hfind1 hgrp1 rfl rfl rfl rfl
  have hstep2 : rankCard
      (c2Fs (c2Card ("task-a".toStr) ("Task A".toStr) ca (some 1))
        (c2Card ("task-b".toStr) ("Task B".toStr) cb (some 2))
        (c2Card ("task-c".toStr) ("Task C".toStr) cc (some 3)) now1)
      ("task-c".toStr) 1 now2 =
      (c2Fs (c2Card ("task-a".toStr) ("Task A".toStr) ca (some 2))
        (c2Card ("task-b".toStr) ("Task B".toStr) cb (some 3))
        (c2Card ("task-c".toStr) ("Task C".toStr) cc (some 1)) now2,
       Except.ok ()) := by
    rw [hrank2]
    rfl
  -- final load
  have hload2 : (loadBoard (c2Fs
      (c2Card ("task-a".toStr) ("Task A".toStr) ca (some 2))
      (c2Card ("task-b".toStr) ("Task B".toStr) cb (some 3))
      (c2Card ("task-c".toStr) ("Task C".toStr) cc (some 1)) now2)).cards =
      [c2Card ("task-a".toStr) ("Task A".toStr) ca (some 2),
       c2Card ("task-b".toStr) ("Task B".toStr) cb (some 3),
       c2Card ("task-c".toStr) ("Task C".toStr) cc (some 1)] := by
    have hstruct : (loadBoard (c2Fs
        (c2Card ("task-a".toStr) ("Task A".toStr) ca (some 2))
        (c2Card ("task-b".toStr) ("Task B".toStr) cb (some 3))
        (c2Card ("task-c".toStr) ("Task C".toStr) cc (some 1)) now2)).cards =
        [parseCard
          (serializeCard (c2Card ("task-a".toStr) ("Task A".toStr) ca (some 2)) now2)
          ("task-a".toStr ++ ".md".toStr) ("todo".toStr),
         parseCard
          (serializeCard (c2Card ("task-b".toStr) ("Task B".toStr) cb (some 3)) now2)
          ("task-b".toStr ++ ".md".toStr) ("todo".toStr),
         parseCard
          (serializeCard (c2Card ("task-c".toStr) ("Task C".toStr) cc (some 1)) now2)
          ("task-c".toStr ++ ".md".toStr) ("todo".toStr)] := rfl
    rw [hstruct, hpA2, hpB3, hpC1]
  refine ⟨c2Fs (c2Card ("task-a".toStr) ("Task A".toStr) ca (some 1))
      (c2Card ("task-b".toStr) ("Task B".toStr) cb (some 2))
      (c2Card ("task-c".toStr) ("Task C".toStr) cc (some 3)) now1,
    c2Fs (c2Card ("task-a".toStr) ("Task A".toStr) ca (some 2))
      (c2Card ("task-b".toStr) ("Task B".toStr) cb (some 3))
      (c2Card ("task-c".toStr) ("Task C".toStr) cc (some 1)) now2,
    hstep1, hstep2, ?_⟩
  rw [hload2]
  rfl

/-- C2 witness: the double ranking scenario with concrete ascending
creation dates. -/
theorem c2_rank_twice_witness :
    ∃ fs1 fs2 : FsState,
      rankCard
        (c2Fs (c2Card ("task-a".toStr) ("Task A".toStr) ("2024-01-01".toStr) none)
          (c2Card ("task-b".toStr) ("Task B".toStr) ("2024-01-02".toStr) none)
          (c2Card ("task-c".toStr) ("Task C".toStr) ("2024-01-03".toStr) none)
          ("2024-02-01T00:00:00.000Z".toStr))
        ("task-a".toStr) 1 ("2024-02-01T00:00:00.000Z".toStr) =
        (fs1, Except.ok ()) ∧
      rankCard fs1 ("task-c".toStr) 1 ("2024-02-02T00:00:00.000Z".toStr) =
        (fs2, Except.ok ()) ∧
      (loadBoard fs2).cards.map (fun c => (c.id, c.rank)) =
        [("task-a".toStr, some 2), ("task-b".toStr, some 3),
         ("task-c".toStr, some 1)] :=
  c2_rank_twice ("2024-01-01".toStr) ("2024-01-02".toStr) ("2024-01-03".toStr)
    ("2024-02-01T00:00:00.000Z".toStr) ("2024-02-02T00:00:00.000Z".toStr)
    (by simp only [wfFmVal, wfVal]; decide)
    (by simp only [wfFmVal, wfVal]; decide)
    (by simp only [wfFmVal, wfVal]; decide)
    (by decide) (by decide)

theorem perm_insertIdx_cons (a : α) : ∀ (n : Nat) (l : List α), n ≤ l.length →
    (l.insertIdx n a).Perm (a :: l)
  | 0, l, _ => by rw [List.insertIdx_zero]
  | n + 1, [], h => by exact absurd h (by simp)
  | n + 1, x :: xs, h => by
    rw [List.insertIdx_succ_cons]
    exact ((perm_insertIdx_cons a n xs (by simpa using h)).cons x).trans
      (List.Perm.swap a x xs)

theorem perm_cons_eraseIdx (l : List α) (i : Nat) (h : i < l.length) :
    l.Perm (l[i] :: l.eraseIdx i) := by
  rw [List.eraseIdx_eq_take_drop_succ]
  conv_lhs => rw [← List.take_append_drop i l, ← List.getElem_cons_drop l i h]
  exact List.perm_middle

/-- C5: when a ranking operation succeeds (valid id, position at least
1, target found, and the target's id unique within its group), the
sequence the operation persists is a permutation of the target's
`(column, priority)` group in which the n cards receive exactly the
ranks 1..n — contiguous, 1-based and pairwise distinct. -/
theorem c5_rank_renumber_invariant :
    ∀ (fs : FsState) (cardId : Str) (pos : Int) (now : Str) (card : Card),
      validName cardId = true → 1 ≤ pos →
      findCard (loadBoard fs).cards cardId = some card →
      (∀ c ∈ groupOf (loadBoard fs).cards card.column card.priority,
        c.id = cardId → c = card) →
      ∃ seq : List Card,
        rankCard fs cardId pos now =
          (((seq.enum).filterMap (fun p =>
            if p.2.rank ≠ some ((p.1 : Int) + 1) then
              some (p.2.column, p.2.id ++ ".md".toStr,
                serializeCard { p.2 with rank := some ((p.1 : Int) + 1) } now)
            else none)).foldl
            (fun acc u => writeAtomic acc u.1 u.2.1 u.2.2) fs, Except.ok ()) ∧
        seq.Perm (groupOf (loadBoard fs).cards card.column card.priority) ∧
        (seq.enum.map (fun pr =>
          ({ pr.2 with rank := some ((pr.1 : Int) + 1) } : Card).rank)) =
          (List.range seq.length).map (fun i : Nat => some ((i : Int) + 1)) ∧
        ((List.range seq.length).map (fun i : Nat => some ((i : Int) + 1))).Nodup := by
  intro fs cardId pos now card hv hpos hfind huniq
  set GRP := (loadBoard fs).cards.filter (fun c =>
    c.column = card.column && c.priority = card.priority) with hGRP
  set SORTED := List.insertionSort (fun a b => cmpCards a b ≤ 0) GRP with hSORTED
  set REMOVED := (match SORTED.findIdx? (fun c => c.id = cardId) with
    | some i => SORTED.eraseIdx i
    | none => SORTED) with hREMOVED
  set SEQ := REMOVED.insertIdx (min (pos - 1).toNat REMOVED.length) card with hSEQ
  have huniq2 : ∀ c ∈ GRP, c.id = cardId → c = card := by
    rw [hGRP]
    exact huniq
  have hcard_grp : card ∈ GRP := by
    rw [hGRP]
    refine List.mem_filter.mpr ⟨List.mem_of_find?_eq_some hfind, ?_⟩
    simp
  have hperm_sorted : SORTED.Perm GRP := by
    rw [hSORTED]
    exact List.perm_insertionSort _ _
  have hcard_sorted : card ∈ SORTED := hperm_sorted.mem_iff.mpr hcard_grp
  have hcid : card.id = cardId := by
    have hp := List.find?_some hfind
    exact of_decide_eq_true hp
  obtain ⟨i, hi⟩ : ∃ i, SORTED.findIdx? (fun c => c.id = cardId) = some i := by
    cases hfi : SORTED.findIdx? (fun c => c.id = cardId) with
    | some j => exact ⟨j, rfl⟩
    | none =>
      exfalso
      have hall := List.findIdx?_eq_none_iff.mp hfi card hcard_sorted
      rw [decide_eq_false_iff_not] at hall
      exact hall hcid
  obtain ⟨hilen, hpi, hmin⟩ := List.findIdx?_eq_some_iff_getElem.mp hi
  have hival : SORTED[i] = card :=
    huniq2 SORTED[i] (hperm_sorted.mem_iff.mp (List.getElem_mem hilen))
      (of_decide_eq_true hpi)
  have hremoved_eq : REMOVED = SORTED.eraseIdx i := by
    rw [hREMOVED, hi]
  have hperm1 : SORTED.Perm (card :: SORTED.eraseIdx i) := by
    have h := perm_cons_eraseIdx SORTED i hilen
    rw [hival] at h
    exact h
  have hperm2 : SEQ.Perm (card :: REMOVED) := by
    rw [hSEQ]
    exact perm_insertIdx_cons card _ REMOVED (Nat.min_le_right _ _)
  refine ⟨SEQ, ?_, ?_, ?_, ?_⟩
  · exact rankCard_eval fs cardId pos now card GRP SORTED REMOVED SEQ _
      hv (by omega) hfind hGRP.symm hSORTED.symm hREMOVED.symm hSEQ.symm rfl
  · refine hperm2.trans ?_
    rw [hremoved_eq]
    exact hperm1.symm.trans hperm_sorted
  · have h2 : (SEQ.enum.map Prod.fst).map (fun i : Nat => some ((i : Int) + 1)) =
        SEQ.enum.map (fun pr => some ((pr.1 : Int) + 1)) := by
      rw [List.map_map]
      rfl
    have h1 : (SEQ.enum.map Prod.fst).map (fun i : Nat => some ((i : Int) + 1)) =
        (List.range SEQ.length).map (fun i : Nat => some ((i : Int) + 1)) := by
      rw [List.enum_map_fst]
    exact h2.symm.trans h1
  · refine List.Nodup.map ?_ (List.nodup_range _)
    intro a b hab
    simp only [Option.some.injEq] at hab
    omega

/-- C5 witness: ranking the single card of a one-card group persists
the renumbering 1..1. -/
theorem c5_rank_renumber_invariant_witness :
    ∃ seq : List Card,
      rankCard
        { columns := ["todo".toStr]
          files := [⟨"todo".toStr, "a.md".toStr,
            "---\npriority: medium\ncreated: 2024-01-15\n---\n# A".toStr⟩] }
        ("a".toStr) 1 ("2024-02-01T00:00:00.000Z".toStr) =
        (((seq.enum).filterMap (fun p =>
          if p.2.rank ≠ some ((p.1 : Int) + 1) then
            some (p.2.column, p.2.id ++ ".md".toStr,
              serializeCard { p.2 with rank := some ((p.1 : Int) + 1) }
                ("2024-02-01T00:00:00.000Z".toStr))
          else none)).foldl
          (fun acc u => writeAtomic acc u.1 u.2.1 u.2.2)
          { columns := ["todo".toStr]
            files := [⟨"todo".toStr, "a.md".toStr,
              "---\npriority: medium\ncreated: 2024-01-15\n---\n# A".toStr⟩] },
         Except.ok ()) ∧
      seq.Perm (groupOf (loadBoard
        { columns := ["todo".toStr]
          files := [⟨"todo".toStr, "a.md".toStr,
            "---\npriority: medium\ncreated: 2024-01-15\n---\n# A".toStr⟩] }).cards
        ("todo".toStr) ("medium".toStr)) ∧
      (seq.enum.map (fun pr =>
        ({ pr.2 with rank := some ((pr.1 : Int) + 1) } : Card).rank)) =
        (List.range seq.length).map (fun i : Nat => some ((i : Int) + 1)) ∧
      ((List.range seq.length).map (fun i : Nat => some ((i : Int) + 1))).Nodup :=
  c5_rank_renumber_invariant
    { columns := ["todo".toStr]
      files := [⟨"todo".toStr, "a.md".toStr,
        "---\npriority: medium\ncreated: 2024-01-15\n---\n# A".toStr⟩] }
    ("a".toStr) 1 ("2024-02-01T00:00:00.000Z".toStr)
    { id := "a".toStr, title := "A".toStr, priority := "medium".toStr,
      labels := [], created := "2024-01-15".toStr, updated := none,
      description := [], checklist := [], column := "todo".toStr, rank := none }
    (by decide) (by decide) (by decide) (by decide)
